import Mathlib

/-!
Pagination helpers (`utils.go`, package `paging`).

A shallow embedding of the helper functions of `utils.go` together with the
fragments of the Go standard library they call (`strconv.ParseInt`,
`url.Values.Get`, `fmt.Sprintf` for the verbs `%s` and `%d`, and the
observations of `reflect.Value` used by `Last`).

Conventions

* Go `int64` values are mathematical integers (`Int`); the only arithmetic in
  this program happens inside `strconv.ParseInt`, where the unsigned 64-bit
  wrap-around is written out with `% 2 ^ 64`.
* Go strings are Lean strings.  `strconv` walks a string byte by byte; every
  byte of a multi-byte UTF-8 sequence is `≥ 0x80` and is rejected exactly like
  the code point it belongs to, so walking code points gives the same result.
* A request is represented by its parsed query (`request.URL.Query()`), a map
  from keys to lists of values.
-/

namespace Paging

/-! ## Configuration -/

/-- The `Options` value object: the names of the query parameters and the
default and maximum limits.  The type is declared outside `utils.go`; the
fields are the ones `utils.go` reads. -/
structure Options where
  DefaultLimit : Int
  MaxLimit : Int
  LimitKeyName : String
  OffsetKeyName : String
  CursorKeyName : String
  deriving Repr, DecidableEq

/-! ## Requests -/

/-- The parsed query of a URL (`url.Values`, a `map[string][]string`), as an
association list in which the first entry of a key is the map's entry. -/
abbrev Values := List (String × List String)

/-- An HTTP request, reduced to what `utils.go` reads from it: the parsed
query `request.URL.Query()`. -/
structure Request where
  query : Values
  deriving Repr, DecidableEq

/-- The map lookup `v[key]`: the list stored under `key`, the nil slice when
the key is not in the map. -/
def Values.lookup : Values → String → List String
  | [], _ => []
  | (k, vs) :: rest, key => if k = key then vs else Values.lookup rest key

/-- The method `url.Values.Get`: the first value associated with the key, the
empty string when there is none. -/
def Values.Get (v : Values) (key : String) : String :=
  match Values.lookup v key with
  | [] => ""
  | x :: _ => x

/-! ## `strconv.ParseInt(s, 10, 64)` -/

/-- The two errors of `strconv`: `ErrSyntax` and `ErrRange`. -/
inductive NumError where
  | ErrSyntax
  | ErrRange
  deriving Repr, DecidableEq

/-- The largest `uint64`. -/
def maxUint64 : Nat := 2 ^ 64 - 1

/-- The byte operation `lower(c) = c | ('x' - 'X')` of `strconv`. -/
def lower (c : Char) : Nat := c.toNat ||| 32

/-- The digit value `strconv.ParseUint` assigns to a character: decimal digits
and (for bases above 10) letters; `none` is the `default` branch of its
switch. The `'_'` case of the switch needs base 0 and never applies here. -/
def digitVal (c : Char) : Option Nat :=
  if '0'.toNat ≤ c.toNat ∧ c.toNat ≤ '9'.toNat then some (c.toNat - '0'.toNat)
  else if 'a'.toNat ≤ lower c ∧ lower c ≤ 'z'.toNat then some (lower c - 'a'.toNat + 10)
  else none

/-- The digit loop of `strconv.ParseUint` for base 10 and bit size 64; `n` is
the number accumulated so far.  The cutoff is `maxUint64 / 10 + 1`, the
smallest number whose tenfold overflows. -/
def parseUintLoop : List Char → Nat → Nat × Option NumError
  | [], n => (n, none)
  | c :: cs, n =>
    match digitVal c with
    | none => (0, some NumError.ErrSyntax)
    | some d =>
      if d ≥ 10 then (0, some NumError.ErrSyntax)
      else if n ≥ maxUint64 / 10 + 1 then (maxUint64, some NumError.ErrRange)
      else
        let m := (n * 10) % 2 ^ 64
        let n1 := (m + d) % 2 ^ 64
        if n1 < m ∨ n1 > maxUint64 then (maxUint64, some NumError.ErrRange)
        else parseUintLoop cs n1

/-- The function `strconv.ParseUint(s, 10, 64)` on the characters of `s`. -/
def ParseUint (s : List Char) : Nat × Option NumError :=
  match s with
  | [] => (0, some NumError.ErrSyntax)
  | _ => parseUintLoop s 0

/-- The conversion `int64(u)` of a `uint64`. -/
def toInt64 (u : Nat) : Int :=
  if u % 2 ^ 64 < 2 ^ 63 then (u % 2 ^ 64 : Nat) else ((u % 2 ^ 64 : Nat) : Int) - 2 ^ 64

/-- Negation of an `int64`, with wrap-around at the minimum. -/
def negInt64 (n : Int) : Int :=
  if n = -(2 ^ 63) then n else -n

/-- The second half of `strconv.ParseInt` for bit size 64: from the sign and
the result of `ParseUint` to the result of `ParseInt`.  A syntax error is
passed on with the value 0; a magnitude beyond the bound of its sign (a range
error of `ParseUint` included) gives that bound and a range error. -/
def parseIntFinish (neg : Bool) : Nat × Option NumError → Int × Option NumError
  | (_, some NumError.ErrSyntax) => (0, some NumError.ErrSyntax)
  | (un, _) =>
    if !neg && decide (un ≥ 2 ^ 63) then (2 ^ 63 - 1, some NumError.ErrRange)
    else if neg && decide (un > 2 ^ 63) then (-(2 ^ 63), some NumError.ErrRange)
    else (if neg then negInt64 (toInt64 un) else toInt64 un, none)

/-- The function `strconv.ParseInt(s, 10, 64)`: the value and the error
(`none` is `nil`).  A leading sign is picked off, the rest goes through
`ParseUint`. -/
def ParseInt (s : String) : Int × Option NumError :=
  match s.data with
  | [] => (0, some NumError.ErrSyntax)
  | c :: cs =>
    if c = '+' then parseIntFinish false (ParseUint cs)
    else if c = '-' then parseIntFinish true (ParseUint cs)
    else parseIntFinish false (ParseUint (c :: cs))

/-- Whether a character is one of the decimal digits `0` to `9`. -/
def isDecimalDigit (c : Char) : Bool :=
  decide ('0'.toNat ≤ c.toNat ∧ c.toNat ≤ '9'.toNat)

/-! ## Validation and extraction -/

/-- The loop of `ValidateLimitMarker` over the slice `values`: `false` at the
first negative element, `true` when the slice is exhausted. -/
def ValidateLimitMarker.loop : List Int → Bool
  | [] => true
  | v :: vs => if v < 0 then false else ValidateLimitMarker.loop vs

/-- Go: `ValidateLimitMarker(limit, marker)`. -/
def ValidateLimitMarker (limit marker : Int) : Bool :=
  ValidateLimitMarker.loop [limit, marker]

/-- Go: `GetLimitFromRequest(request, options)`. -/
def GetLimitFromRequest (request : Request) (options : Options) : Int :=
  let requestLimit := Values.Get request.query options.LimitKeyName
  if requestLimit ≠ "" then
    let (limit, err) := ParseInt requestLimit
    let limit := if err ≠ none then options.DefaultLimit else limit
    if options.MaxLimit > 0 ∧ limit > options.MaxLimit then options.MaxLimit else limit
  else
    options.DefaultLimit

/-- Go: `GetOffsetFromRequest(request, options)`. -/
def GetOffsetFromRequest (request : Request) (options : Options) : Int :=
  let requestOffset := Values.Get request.query options.OffsetKeyName
  if requestOffset ≠ "" then
    let (offset, err) := ParseInt requestOffset
    if err ≠ none then 0 else offset
  else
    0

/-- Go: `GetCursorFromRequest(request, options)`. -/
def GetCursorFromRequest (request : Request) (options : Options) : Int :=
  let requestCursor := Values.Get request.query options.CursorKeyName
  if requestCursor ≠ "" then
    let (cursor, err) := ParseInt requestCursor
    if err ≠ none then 0 else cursor
  else
    0

/-- Go: `GetPaginationType(request, options)`; `options` is a pointer and may
be nil (`none`).  The constants `CursorType` and `OffsetType` and the
constructor `NewOptions` are declared outside `utils.go` and are taken as
parameters. -/
def GetPaginationType (CursorType OffsetType : String) (NewOptions : Options)
    (request : Request) (options : Option Options) : String :=
  let options := match options with
    | none => NewOptions
    | some o => o
  if GetCursorFromRequest request options > 0 then CursorType else OffsetType

/-! ## `fmt.Sprintf` for the verbs `%s` and `%d` -/

/-- The digit loop of `fmt`'s `fmtInteger` for base 10: the digits of `u` are
written from the least significant one, in front of what is already in the
buffer. -/
def fmtDigits (u : Nat) (buf : List Char) : List Char :=
  if h : u ≥ 10 then fmtDigits (u / 10) (Char.ofNat ('0'.toNat + (u - u / 10 * 10)) :: buf)
  else Char.ofNat ('0'.toNat + u) :: buf
termination_by u
decreasing_by omega

/-- The base-10 rendering `fmt` gives an integer under `%d`: the digits of the
magnitude, after a minus sign when the number is negative. -/
def fmtInteger (n : Int) : String :=
  let digits := fmtDigits n.natAbs []
  String.mk (if n < 0 then '-' :: digits else digits)

/-! ## Dynamic values (`interface{}` and `reflect.Value`) -/

/-- The kinds of `reflect.Kind`. -/
inductive Kind where
  | Invalid | Bool
  | Int | Int8 | Int16 | Int32 | Int64
  | Uint | Uint8 | Uint16 | Uint32 | Uint64 | Uintptr
  | Float32 | Float64 | Complex64 | Complex128
  | Array | Chan | Func | Interface | Map | Ptr | Slice | String | Struct
  | UnsafePointer
  deriving Repr, DecidableEq

/-- The signed integer types by width. -/
inductive IntWidth where
  | W | W8 | W16 | W32 | W64
  deriving Repr, DecidableEq

/-- The unsigned integer types by width (`Wptr` is `uintptr`). -/
inductive UintWidth where
  | W | W8 | W16 | W32 | W64 | Wptr
  deriving Repr, DecidableEq

/-- The kinds whose values this embedding does not look into. -/
inductive OtherKind where
  | Float32 | Float64 | Complex64 | Complex128 | Chan | Func | Map | UnsafePointer
  deriving Repr, DecidableEq

/-- A Go type as `reflect.Type` shows it to this program: the package that
declares it (empty for predeclared and unnamed types) and the text returned by
its method `String()`. -/
structure RType where
  pkgPath : String
  str : String
  deriving Repr, DecidableEq

/-- The type `int`. -/
def RType.int : RType := ⟨"", "int"⟩

/-- The type `int64`. -/
def RType.int64 : RType := ⟨"", "int64"⟩

/-- The type `string`. -/
def RType.string : RType := ⟨"", "string"⟩

/-- The type `time.Time`. -/
def RType.time : RType := ⟨"time", "time.Time"⟩

/-- A Go value together with its dynamic type, as held by an `interface{}` or a
`reflect.Value`.  `invalid` is the nil interface (the zero `reflect.Value`); a
pointer holds `none` when it is nil; a struct lists its fields (name, whether
the name is exported, whether the field is embedded, value) in declaration
order; `iface` is a value of interface type met inside a container.  `nilPtr`
is a nil pointer given together with the zero value of the type it points to,
which stands for the declaration of that type: the search for a promoted field
goes through an embedded nil pointer to a struct and needs the fields of that
struct (an embedded nil pointer given as `ptr t none` is searched as a pointer
to a type without fields).  Values carry no method sets, and a value is a
finite tree: data that reaches itself through pointers is not covered. -/
inductive Value where
  | invalid
  | bool (t : RType) (b : Bool)
  | int (t : RType) (w : IntWidth) (v : Int)
  | uint (t : RType) (w : UintWidth) (v : Nat)
  | string (t : RType) (s : String)
  | ptr (t : RType) (elem : Option Value)
  | slice (t : RType) (elems : List Value)
  | array (t : RType) (elems : List Value)
  | struct (t : RType) (fields : List (String × Bool × Bool × Value))
  | iface (t : RType) (dyn : Option Value)
  | other (t : RType) (k : OtherKind)
  | nilPtr (t : RType) (zero : Value)

/-- The result of running Go code that may panic. -/
inductive Outcome (α : Type) where
  | ret (a : α)
  | panic

/-- Sequencing of computations that may panic. -/
def Outcome.bind {α β : Type} (x : Outcome α) (f : α → Outcome β) : Outcome β :=
  match x with
  | Outcome.ret a => f a
  | Outcome.panic => Outcome.panic

instance : Monad Outcome where
  pure := Outcome.ret
  bind := Outcome.bind

/-- The kind of a signed integer type. -/
def IntWidth.kind : IntWidth → Kind
  | IntWidth.W => Kind.Int
  | IntWidth.W8 => Kind.Int8
  | IntWidth.W16 => Kind.Int16
  | IntWidth.W32 => Kind.Int32
  | IntWidth.W64 => Kind.Int64

/-- The kind of an unsigned integer type. -/
def UintWidth.kind : UintWidth → Kind
  | UintWidth.W => Kind.Uint
  | UintWidth.W8 => Kind.Uint8
  | UintWidth.W16 => Kind.Uint16
  | UintWidth.W32 => Kind.Uint32
  | UintWidth.W64 => Kind.Uint64
  | UintWidth.Wptr => Kind.Uintptr

/-- The kind of a type whose values are not looked into. -/
def OtherKind.kind : OtherKind → Kind
  | OtherKind.Float32 => Kind.Float32
  | OtherKind.Float64 => Kind.Float64
  | OtherKind.Complex64 => Kind.Complex64
  | OtherKind.Complex128 => Kind.Complex128
  | OtherKind.Chan => Kind.Chan
  | OtherKind.Func => Kind.Func
  | OtherKind.Map => Kind.Map
  | OtherKind.UnsafePointer => Kind.UnsafePointer

/-- The method `reflect.Value.Kind`; the zero value has kind `Invalid`. -/
def Value.Kind : Value → Kind
  | Value.invalid => Kind.Invalid
  | Value.bool _ _ => Kind.Bool
  | Value.int _ w _ => w.kind
  | Value.uint _ w _ => w.kind
  | Value.string _ _ => Kind.String
  | Value.ptr _ _ => Kind.Ptr
  | Value.slice _ _ => Kind.Slice
  | Value.array _ _ => Kind.Array
  | Value.struct _ _ => Kind.Struct
  | Value.iface _ _ => Kind.Interface
  | Value.other _ k => k.kind
  | Value.nilPtr _ _ => Kind.Ptr

/-- The method `reflect.Value.Type`; it panics on the zero value. -/
def Value.Type : Value → Outcome RType
  | Value.invalid => Outcome.panic
  | Value.bool t _ => Outcome.ret t
  | Value.int t _ _ => Outcome.ret t
  | Value.uint t _ _ => Outcome.ret t
  | Value.string t _ => Outcome.ret t
  | Value.ptr t _ => Outcome.ret t
  | Value.slice t _ => Outcome.ret t
  | Value.array t _ => Outcome.ret t
  | Value.struct t _ => Outcome.ret t
  | Value.iface t _ => Outcome.ret t
  | Value.other t _ => Outcome.ret t
  | Value.nilPtr t _ => Outcome.ret t

/-- The method `reflect.Value.Elem`: what a pointer points to or an interface
holds, the zero value when that is nil; it panics on any other kind. -/
def Value.Elem : Value → Outcome Value
  | Value.ptr _ (some v) => Outcome.ret v
  | Value.ptr _ none => Outcome.ret Value.invalid
  | Value.nilPtr _ _ => Outcome.ret Value.invalid
  | Value.iface _ (some v) => Outcome.ret v
  | Value.iface _ none => Outcome.ret Value.invalid
  | _ => Outcome.panic

/-- The method `reflect.Value.Len` on arrays, slices and strings (a string has
as many elements as bytes in its UTF-8 encoding); it panics on the kinds that
have no length.  The lengths of maps and channels are not part of this
embedding; `Last` asks for the length of arrays and slices only. -/
def Value.Len : Value → Outcome Nat
  | Value.slice _ xs => Outcome.ret xs.length
  | Value.array _ xs => Outcome.ret xs.length
  | Value.string _ s => Outcome.ret s.utf8ByteSize
  | _ => Outcome.panic

/-- The method `reflect.Value.Index` on arrays and slices; it panics when the
index is out of range. -/
def Value.Index : Value → Nat → Outcome Value
  | Value.slice _ xs, i =>
    match xs.get? i with
    | some x => Outcome.ret x
    | none => Outcome.panic
  | Value.array _ xs, i =>
    match xs.get? i with
    | some x => Outcome.ret x
    | none => Outcome.panic
  | _, _ => Outcome.panic

/-- A field of a struct value: its name, whether the name is exported, whether
the field is embedded, and its value. -/
abbrev Field := String × Bool × Bool × Value

/-- The first loop of `reflect`'s `FieldByName`, over the fields the struct
declares itself: the value of the first field of the given name and whether it
is read-only, which it is when the name is not exported.  (No field has the
empty name, which that loop skips.) -/
def lookupField : List Field → String → Option (Value × Bool)
  | [], _ => none
  | (n, exported, _, v) :: rest, name =>
    if n = name then some (v, !exported) else lookupField rest name

/-- Whether a struct has an embedded field, the `hasEmbeds` of `FieldByName`. -/
def hasEmbeds : List Field → Bool
  | [] => false
  | (_, _, embedded, _) :: rest => embedded || hasEmbeds rest

/-- The struct an embedded field makes the search go into: the field is a
struct or a pointer to one; the fields of that struct, and whether the pointer
is nil. -/
def embeddedStruct : Value → Option (List Field × Bool)
  | Value.struct _ fs => some (fs, false)
  | Value.ptr _ (some (Value.struct _ fs)) => some (fs, false)
  | Value.nilPtr _ (Value.struct _ fs) => some (fs, true)
  | _ => none

/-- The fields of the given name in one struct of a level of the search: the
value, whether it is read-only, and whether the way to the struct goes through
a nil pointer. -/
def matchesInFields (name : String) (viaNil : Bool) : List Field → List (Value × Bool × Bool)
  | [] => []
  | (n, exported, _, v) :: rest =>
    if n = name then (v, !exported, viaNil) :: matchesInFields name viaNil rest
    else matchesInFields name viaNil rest

/-- The fields of the given name in all structs of a level of the search. -/
def matchesInLevel (name : String) : List (List Field × Bool) → List (Value × Bool × Bool)
  | [] => []
  | (fs, viaNil) :: rest => matchesInFields name viaNil fs ++ matchesInLevel name rest

/-- The structs the embedded fields of one struct put on the next level. -/
def embeddedOfFields (viaNil : Bool) : List Field → List (List Field × Bool)
  | [] => []
  | (_, _, embedded, v) :: rest =>
    if embedded then
      match embeddedStruct v with
      | some (fs, isNil) => (fs, viaNil || isNil) :: embeddedOfFields viaNil rest
      | none => embeddedOfFields viaNil rest
    else embeddedOfFields viaNil rest

/-- The next level of the search: the structs embedded in those of this
level. -/
def nextLevel : List (List Field × Bool) → List (List Field × Bool)
  | [] => []
  | (fs, viaNil) :: rest => embeddedOfFields viaNil fs ++ nextLevel rest

/-- The breadth-first search of `reflect`'s `FieldByNameFunc` followed by
`FieldByIndex`, one depth level at a time on the tree of embedded structs.  No
struct left on a level: no such field.  One field of the name on the level:
that field, and a panic when the way to it goes through a nil pointer.
Several on the level: they annihilate each other and there is no such field.
None: the search goes one level down.  A field that is not found is the zero
value.  The read-only flag of the field found is that of its own name: going
through an unexported embedded field leaves no flag behind.  `reflect` looks
at a struct type once; in the tree a type met again holds no field of the name
that the first meeting did not show on a level above. -/
def searchLevels (name : String) : Nat → List (List Field × Bool) → Outcome (Value × Bool)
  | 0, _ => Outcome.ret (Value.invalid, false)
  | fuel + 1, level =>
    match level with
    | [] => Outcome.ret (Value.invalid, false)
    | _ =>
      match matchesInLevel name level with
      | [] => searchLevels name fuel (nextLevel level)
      | [(v, ro, viaNil)] => if viaNil then Outcome.panic else Outcome.ret (v, ro)
      | _ => Outcome.ret (Value.invalid, false)

mutual
/-- The number of struct levels below a value, through pointers. -/
def structDepth : Value → Nat
  | Value.struct _ fs => fieldsDepth fs + 1
  | Value.ptr _ (some v) => structDepth v
  | Value.nilPtr _ z => structDepth z
  | _ => 0
/-- The number of struct levels below the fields of a struct. -/
def fieldsDepth : List Field → Nat
  | [] => 0
  | (_, _, _, v) :: rest => max (structDepth v) (fieldsDepth rest)
end

/-- The method `reflect.Value.FieldByName`: the field with the given name and
its read-only flag, the zero value when the struct has no such field; it
panics when the value is not a struct.  A field the struct declares itself is
found first; otherwise, when the struct has embedded fields, the field is
searched among the promoted ones, on as many levels as the struct has. -/
def Value.FieldByName : Value → String → Outcome (Value × Bool)
  | Value.struct _ fields, name =>
    match lookupField fields name with
    | some f => Outcome.ret f
    | none =>
      if hasEmbeds fields then searchLevels name (fieldsDepth fields + 1) [(fields, false)]
      else Outcome.ret (Value.invalid, false)
  | _, _ => Outcome.panic

/-- The number of struct levels below the structs of a level of the search. -/
def levelDepth : List (List Field × Bool) → Nat
  | [] => 0
  | (fs, _) :: rest => max (fieldsDepth fs) (levelDepth rest)

/-- The method `reflect.Value.Interface` on a value and its read-only flag: it
panics on the zero value and on a value obtained from an unexported field. -/
def Value.Interface : Value × Bool → Outcome Value
  | (Value.invalid, _) => Outcome.panic
  | (_, true) => Outcome.panic
  | (v, false) => Outcome.ret v

/-- The type assertion `x.(time.Time)`: it panics unless the dynamic type of
`x` is `time.Time`. -/
def assertTime (x : Value) : Outcome Value :=
  match x with
  | Value.struct t fields =>
    if t = RType.time then Outcome.ret (Value.struct t fields) else Outcome.panic
  | _ => Outcome.panic

/-- The method `reflect.Value.Int`: the value of a signed integer of any width
as an `int64`; it panics on every other kind. -/
def Value.Int : Value → Outcome Int
  | Value.int _ _ v => Outcome.ret v
  | _ => Outcome.panic

/-! ## `fmt.Sprintf` -/

/-- The part of `fmt` this embedding does not interpret, as a parameter:
`arg verb v` is what `fmt` prints for the operand `v` under `verb` outside the
pairs interpreted by `printArg`, and `directive format args` is the output for
a format that starts with a directive other than `%s` and `%d`, or is
exhausted while operands remain. -/
structure FmtRest where
  arg : Char → Value → String
  directive : List Char → List Value → String

/-- The `printArg` step of `fmt`: a string under `%s` is written as it is and
an integer of any width under `%d` is written in base 10. -/
def printArg (F : FmtRest) (verb : Char) (arg : Value) : String :=
  match arg with
  | Value.string _ s => if verb = 's' then s else F.arg verb arg
  | Value.int _ _ v => if verb = 'd' then fmtInteger v else F.arg verb arg
  | Value.uint _ _ v => if verb = 'd' then fmtInteger (v : Int) else F.arg verb arg
  | _ => F.arg verb arg

/-- The loop of `fmt`'s `doPrintf` over the format: text is copied to the
buffer, and each `%s` or `%d` consumes the next operand. -/
def doPrintf (F : FmtRest) : List Char → List Value → String → String
  | [], [], buf => buf
  | [], a :: args, buf => buf ++ F.directive [] (a :: args)
  | c :: rest, args, buf =>
    if c ≠ '%' then doPrintf F rest args (buf.push c)
    else
      match rest, args with
      | verb :: rest', a :: args' =>
        if verb = 's' ∨ verb = 'd' then doPrintf F rest' args' (buf ++ printArg F verb a)
        else buf ++ F.directive (c :: rest) args
      | _, _ => buf ++ F.directive (c :: rest) args

/-- Go: `fmt.Sprintf(format, args...)`. -/
def Sprintf (F : FmtRest) (format : String) (args : List Value) : String :=
  doPrintf F format.data args ""

/-! ## URI generation -/

/-- A Go `string` as a dynamic value. -/
def stringValue (s : String) : Value := Value.string RType.string s

/-- A Go `int64` as a dynamic value. -/
def int64Value (n : Int) : Value := Value.int RType.int64 IntWidth.W64 n

/-- A Go `int` as a dynamic value. -/
def intValue (n : Int) : Value := Value.int RType.int IntWidth.W n

/-- Go: `GenerateOffsetURI(limit, offset, options)`. -/
def GenerateOffsetURI (F : FmtRest) (limit offset : Int) (options : Options) : String :=
  Sprintf F "?%s=%d&%s=%d"
    [stringValue options.LimitKeyName, int64Value limit,
     stringValue options.OffsetKeyName, int64Value offset]

/-- Go: `GenerateCursorURI(limit, cursor, options)`; `cursor` is an
`interface{}`. -/
def GenerateCursorURI (F : FmtRest) (limit : Int) (cursor : Value) (options : Options) : String :=
  Sprintf F "?%s=%d&%s=%d"
    [stringValue options.LimitKeyName, int64Value limit,
     stringValue options.CursorKeyName, cursor]

/-! ## The last element of a sequence -/

/-- Go: `Last(arr, field)`.  The result is the returned pair: the value and
the error, whose message is given when it is not nil. -/
def Last (F : FmtRest) (arr : Value) (field : String) : Outcome (Value × Option String) := do
  let value := arr
  let valueType ← value.Type
  let kind := value.Kind
  let (value, valueType, kind) ←
    (if kind = Kind.Ptr then do
      let value ← value.Elem
      let valueType ← value.Type
      pure (value, valueType, value.Kind)
    else pure (value, valueType, kind) : Outcome (Value × RType × Kind))
  if kind = Kind.Array ∨ kind = Kind.Slice then do
    let len ← value.Len
    if len = 0 then
      return (intValue 0, none)
    let item ← value.Index (len - 1)
    let cursor ← item.FieldByName field
    if cursor.1.Kind = Kind.Struct then do
      let x ← Value.Interface cursor
      let t ← assertTime x
      return (t, none)
    let i ← cursor.1.Int
    return (int64Value i, none)
  return (intValue 0,
    some (Sprintf F "Type %s is not supported by Last" [stringValue valueType.str]))

/-! ## Notions used to state the properties of `Last` -/

/-- The argument of `Last` after dereferencing at most one pointer level: what
a pointer points to (the zero value for a nil pointer), the argument itself
when it is not a pointer. -/
def derefOnce : Value → Value
  | Value.ptr _ (some v) => v
  | Value.ptr _ none => Value.invalid
  | Value.nilPtr _ _ => Value.invalid
  | v => v

/-- Whether a kind is one of the two sequence kinds, array and slice. -/
def isSequenceKind (k : Kind) : Bool :=
  decide (k = Kind.Array) || decide (k = Kind.Slice)

/-- Whether a call of `Last` returned with a non-nil error. -/
def returnsError : Outcome (Value × Option String) → Bool
  | Outcome.ret (_, some _) => true
  | _ => false

/-- The array-or-slice branch of `Last` on its own: the value and the field
name are those `Last` has at that point. -/
def lastOfSequence (value : Value) (field : String) : Outcome (Value × Option String) := do
  let len ← value.Len
  if len = 0 then
    return (intValue 0, none)
  let item ← value.Index (len - 1)
  let cursor ← item.FieldByName field
  if cursor.1.Kind = Kind.Struct then do
    let x ← Value.Interface cursor
    let t ← assertTime x
    return (t, none)
  let i ← cursor.1.Int
  return (int64Value i, none)

/-- The step of `Last` after the last element has been taken: the field is
looked up in the item and returned as a timestamp or as an `int64`. -/
def lastOfItem (item : Value) (field : String) : Outcome (Value × Option String) := do
  let cursor ← item.FieldByName field
  if cursor.1.Kind = Kind.Struct then do
    let x ← Value.Interface cursor
    let t ← assertTime x
    return (t, none)
  let i ← cursor.1.Int
  return (int64Value i, none)

/-- Whether a computation returned, that is, did not panic. -/
def Outcome.returns {α : Type} : Outcome α → Bool
  | Outcome.ret _ => true
  | Outcome.panic => false

/-- The elements of an array or slice; no elements for any other value. -/
def seqElems : Value → List Value
  | Value.slice _ xs => xs
  | Value.array _ xs => xs
  | _ => []

/-- Whether an item is a struct in which the field of the given name, declared
in the struct or promoted from an embedded struct as `reflect` resolves it, is
one `Last` returns: a field of a signed integer kind, or an exported field of
type `time.Time`. -/
def fieldReturnable (item : Value) (field : String) : Bool :=
  match item.FieldByName field with
  | Outcome.ret (Value.int _ _ _, _) => true
  | Outcome.ret (Value.struct t _, ro) => decide (t = RType.time) && !ro
  | _ => false

/-- The arguments on which `Last` is defined: after dereferencing at most one
pointer level the argument is a value, and it is not an array or slice, or is
an empty one, or its last element has a returnable field of the given name. -/
def lastDefined (arr : Value) (field : String) : Bool :=
  if (derefOnce arr).Kind = Kind.Invalid then false
  else if isSequenceKind (derefOnce arr).Kind = false then true
  else
    match (seqElems (derefOnce arr)).getLast? with
    | none => true
    | some item => fieldReturnable item field

/-- A `time.Time` value: its wall and monotonic clock readings and a nil
location pointer, which stands for UTC. -/
def timeValue (wall : Nat) (ext : Int) : Value :=
  Value.struct RType.time
    [("wall", false, false, Value.uint ⟨"", "uint64"⟩ UintWidth.W64 wall),
     ("ext", false, false, Value.int RType.int64 IntWidth.W64 ext),
     ("loc", false, false, Value.ptr ⟨"", "*time.Location"⟩ none)]

/-- An instance of the uninterpreted part of `fmt` that prints nothing, for
evaluating calls that do not reach it. -/
def FmtRest.silent : FmtRest := ⟨fun _ _ => "", fun _ _ => ""⟩

/-! ## Auxiliary facts -/

theorem digitChar_eq_ofNat (d : Nat) (h : d < 10) :
    Nat.digitChar d = Char.ofNat ('0'.toNat + d) := by
  interval_cases d <;> rfl

theorem fmtDigits_eq_toDigitsCore (fuel : Nat) : ∀ (u : Nat) (buf : List Char), u < fuel →
    fmtDigits u buf = Nat.toDigitsCore 10 fuel u buf := by
  induction fuel with
  | zero => intro u buf h; omega
  | succ fuel ih =>
    intro u buf h
    rw [fmtDigits]
    simp only [Nat.toDigitsCore]
    by_cases h10 : u ≥ 10
    · have h1 : u / 10 ≠ 0 := by omega
      have h2 : u - u / 10 * 10 = u % 10 := by omega
      rw [dif_pos h10, if_neg h1, h2, digitChar_eq_ofNat _ (Nat.mod_lt _ (by decide))]
      exact ih _ _ (by omega)
    · have h1 : u / 10 = 0 := by omega
      have h2 : u % 10 = u := by omega
      rw [dif_neg h10, if_pos h1, h2, digitChar_eq_ofNat _ (by omega)]

/-- The rendering of an integer under `%d` is the usual decimal notation. -/
theorem fmtInteger_eq_toString (n : Int) : fmtInteger n = toString n := by
  cases n with
  | ofNat m =>
    show fmtInteger (Int.ofNat m) = Nat.repr m
    have h0 : ¬ ((m : Int) < 0) := by omega
    simp [fmtInteger, Nat.repr, Nat.toDigits, List.asString, h0,
      fmtDigits_eq_toDigitsCore (m + 1) m [] (by omega)]
  | negSucc m =>
    show fmtInteger (Int.negSucc m) = "-" ++ Nat.repr (m + 1)
    have : Int.negSucc m < 0 := Int.negSucc_lt_zero m
    simp [fmtInteger, Nat.repr, Nat.toDigits, List.asString, this,
      fmtDigits_eq_toDigitsCore (m + 1 + 1) (m + 1) [] (by omega)]
    apply String.ext
    simp

/-- The format of the two URI generators, on two keys and two operands of
which the second is printed as `d2`. -/
theorem Sprintf_uri (F : FmtRest) (k1 k2 : String) (limit : Int) (v : Value) :
    Sprintf F "?%s=%d&%s=%d" [stringValue k1, int64Value limit, stringValue k2, v]
      = "?" ++ k1 ++ "=" ++ fmtInteger limit ++ "&" ++ k2 ++ "=" ++ printArg F 'd' v := by
  simp [Sprintf, doPrintf, printArg, stringValue, int64Value]
  apply String.ext
  simp [String.data_append, String.data_push]

/-- The message of the error of `Last`. -/
theorem Sprintf_unsupported (F : FmtRest) (name : String) :
    Sprintf F "Type %s is not supported by Last" [stringValue name]
      = "Type " ++ name ++ " is not supported by Last" := by
  simp [Sprintf, doPrintf, printArg, stringValue]
  apply String.ext
  simp [String.data_append, String.data_push]

/-- The offset extractor as a function of the text under the offset key. -/
theorem GetOffsetFromRequest_unfold (request : Request) (options : Options) :
    GetOffsetFromRequest request options
      = (if Values.Get request.query options.OffsetKeyName = "" then 0
          else if (ParseInt (Values.Get request.query options.OffsetKeyName)).2 ≠ none then 0
          else (ParseInt (Values.Get request.query options.OffsetKeyName)).1) := by
  simp only [GetOffsetFromRequest]
  by_cases h : Values.Get request.query options.OffsetKeyName = ""
  · simp [h]
  · rcases hp : ParseInt (Values.Get request.query options.OffsetKeyName) with ⟨v, e⟩
    simp [h]

/-- The cursor extractor as a function of the text under the cursor key. -/
theorem GetCursorFromRequest_unfold (request : Request) (options : Options) :
    GetCursorFromRequest request options
      = (if Values.Get request.query options.CursorKeyName = "" then 0
          else if (ParseInt (Values.Get request.query options.CursorKeyName)).2 ≠ none then 0
          else (ParseInt (Values.Get request.query options.CursorKeyName)).1) :=
  GetOffsetFromRequest_unfold request { options with OffsetKeyName := options.CursorKeyName }

/-- `Last` on an argument that is not a pointer and has a valid type. -/
theorem Last_of_value (F : FmtRest) (value : Value) (field : String) (T : RType)
    (hT : value.Type = Outcome.ret T) (hptr : value.Kind ≠ Kind.Ptr) :
    Last F value field
      = (if isSequenceKind value.Kind = true then lastOfSequence value field
          else Outcome.ret
            (intValue 0, some ("Type " ++ T.str ++ " is not supported by Last"))) := by
  by_cases hseq : value.Kind = Kind.Array ∨ value.Kind = Kind.Slice
  · have hs : isSequenceKind value.Kind = true := by
      simpa [isSequenceKind] using hseq
    simp only [Last, bind, Outcome.bind, hT, if_neg hptr, pure, if_pos hseq, hs, if_true,
      lastOfSequence]
  · have hs : ¬ (isSequenceKind value.Kind = true) := by
      simpa [isSequenceKind] using hseq
    simp only [Last, bind, Outcome.bind, hT, if_neg hptr, pure, if_neg hseq, if_neg hs,
      Sprintf_unsupported]

/-- `Last` on a pointer to a value that has a valid type. -/
theorem Last_of_pointer (F : FmtRest) (t : RType) (value : Value) (field : String) (T : RType)
    (hT : value.Type = Outcome.ret T) :
    Last F (Value.ptr t (some value)) field
      = (if isSequenceKind value.Kind = true then lastOfSequence value field
          else Outcome.ret
            (intValue 0, some ("Type " ++ T.str ++ " is not supported by Last"))) := by
  have hk : (Value.ptr t (some value)).Kind = Kind.Ptr := rfl
  have ht : (Value.ptr t (some value)).Type = Outcome.ret t := rfl
  have he : (Value.ptr t (some value)).Elem = Outcome.ret value := rfl
  by_cases hseq : value.Kind = Kind.Array ∨ value.Kind = Kind.Slice
  · have hs : isSequenceKind value.Kind = true := by
      simpa [isSequenceKind] using hseq
    simp only [Last, bind, Outcome.bind, hk, ht, he, hT, if_true, pure, if_pos hseq, hs,
      lastOfSequence]
  · have hs : ¬ (isSequenceKind value.Kind = true) := by
      simpa [isSequenceKind] using hseq
    simp only [Last, bind, Outcome.bind, hk, ht, he, hT, if_true, pure, if_neg hseq, if_neg hs,
      Sprintf_unsupported]

/-- A value of valid kind has a type. -/
theorem Value.Type_of_valid (value : Value) (h : value.Kind ≠ Kind.Invalid) :
    ∃ T, value.Type = Outcome.ret T := by
  cases value <;> simp [Value.Kind, Value.Type] at h ⊢

/-- `Last` in terms of its argument after one dereference, when that is a
valid value. -/
theorem Last_of_valid (F : FmtRest) (arr : Value) (field : String) (T : RType)
    (hT : (derefOnce arr).Type = Outcome.ret T) :
    Last F arr field
      = (if isSequenceKind (derefOnce arr).Kind = true then lastOfSequence (derefOnce arr) field
          else Outcome.ret
            (intValue 0, some ("Type " ++ T.str ++ " is not supported by Last"))) := by
  cases arr with
  | ptr t elem =>
    cases elem with
    | none => simp [derefOnce, Value.Type] at hT
    | some v => exact Last_of_pointer F t v field T hT
  | nilPtr t z => simp [derefOnce, Value.Type] at hT
  | int t w v =>
    exact Last_of_value F _ field T hT (by cases w <;> simp [Value.Kind, IntWidth.kind])
  | uint t w v =>
    exact Last_of_value F _ field T hT (by cases w <;> simp [Value.Kind, UintWidth.kind])
  | other t k =>
    exact Last_of_value F _ field T hT (by cases k <;> simp [Value.Kind, OtherKind.kind])
  | _ => exact Last_of_value F _ field T hT (by simp [Value.Kind])

/-- The array-or-slice branch of `Last` returns no error. -/
theorem lastOfSequence_error (value : Value) (field : String) (v : Value) (e : Option String)
    (h : lastOfSequence value field = Outcome.ret (v, e)) : e = none := by
  simp only [lastOfSequence, bind, Outcome.bind, pure] at h
  split at h
  · split at h
    · cases h; rfl
    · split at h
      · split at h
        · split at h
          · split at h
            · split at h
              · cases h; rfl
              · cases h
            · cases h
          · split at h
            · cases h; rfl
            · cases h
        · cases h
      · cases h
  · cases h

/-! ## Parsing the decimal notation -/

/-- The character `fmt` writes for the digit `d`. -/
theorem digitVal_ofNat (d : Nat) (h : d < 10) :
    digitVal (Char.ofNat ('0'.toNat + d)) = some d := by
  interval_cases d <;> decide

theorem fmtDigits_append (u : Nat) : ∀ buf : List Char, fmtDigits u buf = fmtDigits u [] ++ buf := by
  induction u using Nat.strong_induction_on with
  | _ u ih =>
    intro buf
    rw [fmtDigits]
    conv_rhs => rw [fmtDigits]
    by_cases h : u ≥ 10
    · rw [dif_pos h, dif_pos h, ih (u / 10) (by omega), ih (u / 10) (by omega) [_]]
      simp
    · rw [dif_neg h, dif_neg h]
      simp

theorem fmtDigits_small (u : Nat) (h : u < 10) :
    fmtDigits u [] = [Char.ofNat ('0'.toNat + u)] := by
  rw [fmtDigits, dif_neg (by omega)]

theorem fmtDigits_snoc (u : Nat) (h : u ≥ 10) :
    fmtDigits u [] = fmtDigits (u / 10) [] ++ [Char.ofNat ('0'.toNat + u % 10)] := by
  rw [fmtDigits, dif_pos h, fmtDigits_append]
  have h2 : u - u / 10 * 10 = u % 10 := by omega
  rw [h2]

theorem parseUintLoop_append (cs ds : List Char) : ∀ n : Nat,
    parseUintLoop (cs ++ ds) n
      = (match parseUintLoop cs n with
          | (m, none) => parseUintLoop ds m
          | (m, some e) => (m, some e)) := by
  induction cs with
  | nil => intro n; simp [parseUintLoop]
  | cons c cs ih =>
    intro n
    simp only [List.cons_append, parseUintLoop]
    cases digitVal c with
    | none => simp
    | some d =>
      simp only
      split_ifs
      · rfl
      · rfl
      · rfl
      · exact ih _

theorem parseUintLoop_digit (d n : Nat) (hd : d < 10) :
    parseUintLoop [Char.ofNat ('0'.toNat + d)] n
      = (if n ≥ maxUint64 / 10 + 1 then (maxUint64, some NumError.ErrRange)
          else if (n * 10 % 2 ^ 64 + d) % 2 ^ 64 < n * 10 % 2 ^ 64 then
            (maxUint64, some NumError.ErrRange)
          else ((n * 10 % 2 ^ 64 + d) % 2 ^ 64, none)) := by
  have hmax : ∀ x : Nat, ¬ (x % 2 ^ 64 > maxUint64) := by
    intro x
    have := Nat.mod_lt x (show 2 ^ 64 > 0 by decide)
    simp only [maxUint64]
    omega
  simp only [parseUintLoop, digitVal_ofNat d hd]
  rw [if_neg (by omega)]
  split_ifs with h1 h2 h3 h4 <;>
    first
    | rfl
    | (exfalso; rcases h2 with h2 | h2 <;> first | omega | exact hmax _ h2)
    | (exfalso; omega)

theorem parseUintLoop_fmtDigits (u : Nat) :
    parseUintLoop (fmtDigits u []) 0
      = (if u < 2 ^ 64 then (u, none) else (maxUint64, some NumError.ErrRange)) := by
  induction u using Nat.strong_induction_on with
  | _ u ih =>
    by_cases h : u ≥ 10
    · rw [fmtDigits_snoc u h, parseUintLoop_append, ih (u / 10) (by omega)]
      by_cases hq : u / 10 < 2 ^ 64
      · rw [if_pos hq]
        simp only
        rw [parseUintLoop_digit _ _ (Nat.mod_lt _ (by decide))]
        simp only [maxUint64]
        norm_num
        split_ifs <;> first | rfl | (exfalso; omega) | (simp; omega)
      · rw [if_neg hq, if_neg (by omega)]
    · rw [fmtDigits_small u (by omega), parseUintLoop_digit _ _ (by omega)]
      simp only [maxUint64]
      norm_num
      have : u < 18446744073709551616 := by omega
      simp [this]

theorem fmtDigits_head (u : Nat) :
    ∃ (d : Nat) (cs : List Char), d < 10 ∧ fmtDigits u [] = Char.ofNat ('0'.toNat + d) :: cs := by
  induction u using Nat.strong_induction_on with
  | _ u ih =>
    by_cases h : u ≥ 10
    · obtain ⟨d, cs, hd, hcs⟩ := ih (u / 10) (by omega)
      exact ⟨d, cs ++ [Char.ofNat ('0'.toNat + u % 10)], hd, by rw [fmtDigits_snoc u h, hcs]; rfl⟩
    · exact ⟨u, [], by omega, fmtDigits_small u (by omega)⟩

theorem digit_ne_sign (d : Nat) (h : d < 10) :
    Char.ofNat ('0'.toNat + d) ≠ '+' ∧ Char.ofNat ('0'.toNat + d) ≠ '-' := by
  interval_cases d <;> decide

theorem ParseUint_fmtDigits (u : Nat) :
    ParseUint (fmtDigits u [])
      = (if u < 2 ^ 64 then (u, none) else (maxUint64, some NumError.ErrRange)) := by
  obtain ⟨d, cs, _, hcs⟩ := fmtDigits_head u
  rw [← parseUintLoop_fmtDigits, hcs]
  rfl

/-- The text `fmt` writes for an integer goes through `ParseInt` as its
magnitude with its sign. -/
theorem ParseInt_fmtInteger_finish (n : Int) :
    ParseInt (fmtInteger n)
      = parseIntFinish (decide (n < 0))
          (if n.natAbs < 2 ^ 64 then (n.natAbs, none) else (maxUint64, some NumError.ErrRange)) := by
  obtain ⟨d, cs, hd, hcs⟩ := fmtDigits_head n.natAbs
  obtain ⟨hplus, hminus⟩ := digit_ne_sign d hd
  rw [← ParseUint_fmtDigits]
  by_cases hneg : n < 0
  · have hdata : (fmtInteger n).data = '-' :: fmtDigits n.natAbs [] := by
      simp [fmtInteger, hneg]
    have h1 : ¬ ('-' = '+') := by decide
    simp only [ParseInt, hdata, if_neg h1, if_true, hneg, decide_True]
  · have hdata : (fmtInteger n).data = Char.ofNat ('0'.toNat + d) :: cs := by
      simp [fmtInteger, hneg, hcs]
    simp only [ParseInt, hdata, if_neg hplus, if_neg hminus, hneg, decide_False, hcs]

theorem parseIntFinish_ok (neg : Bool) (un : Nat) :
    parseIntFinish neg (un, none)
      = (if !neg && decide (un ≥ 2 ^ 63) then (2 ^ 63 - 1, some NumError.ErrRange)
          else if neg && decide (un > 2 ^ 63) then (-(2 ^ 63), some NumError.ErrRange)
          else (if neg then negInt64 (toInt64 un) else toInt64 un, none)) := rfl

theorem parseIntFinish_range (neg : Bool) (un : Nat) :
    parseIntFinish neg (un, some NumError.ErrRange)
      = (if !neg && decide (un ≥ 2 ^ 63) then (2 ^ 63 - 1, some NumError.ErrRange)
          else if neg && decide (un > 2 ^ 63) then (-(2 ^ 63), some NumError.ErrRange)
          else (if neg then negInt64 (toInt64 un) else toInt64 un, none)) := rfl

/-- Parsing the decimal notation of an integer gives the integer itself when
it is a 64-bit one. -/
theorem ParseInt_fmtInteger (n : Int) (hlo : -(2 ^ 63) ≤ n) (hhi : n < 2 ^ 63) :
    ParseInt (fmtInteger n) = (n, none) := by
  rw [ParseInt_fmtInteger_finish]
  by_cases hneg : n < 0
  · obtain ⟨m, rfl⟩ : ∃ m : Nat, n = -(m : Int) := ⟨n.natAbs, by omega⟩
    have hm : m ≤ 2 ^ 63 := by omega
    have h64 : m < 2 ^ 64 := by omega
    have h63 : ¬ (m > 2 ^ 63) := by omega
    simp only [Int.natAbs_neg, Int.natAbs_ofNat, if_pos h64, parseIntFinish_ok, hneg, decide_True,
      Bool.not_true, Bool.false_and, Bool.true_and, decide_eq_true_eq, if_neg h63, if_true,
      Bool.false_eq_true, if_false, toInt64, negInt64, Nat.mod_eq_of_lt h64]
    split_ifs <;> simp <;> omega
  · obtain ⟨m, rfl⟩ : ∃ m : Nat, n = (m : Int) := ⟨n.natAbs, by omega⟩
    have h64 : m < 2 ^ 64 := by omega
    have h63 : ¬ (m ≥ 2 ^ 63) := by omega
    have h63b : m < 2 ^ 63 := by omega
    simp only [Int.natAbs_ofNat, if_pos h64, parseIntFinish_ok, hneg, decide_False,
      Bool.not_false, Bool.false_and, Bool.true_and, decide_eq_true_eq, if_neg h63,
      Bool.false_eq_true, if_false, toInt64, Nat.mod_eq_of_lt h64, if_pos h63b]

/-- Parsing the decimal notation of an integer outside the 64-bit range gives
a range error, with the bound on the side of the integer as value. -/
theorem ParseInt_fmtInteger_range (n : Int) (h : n < -(2 ^ 63) ∨ 2 ^ 63 ≤ n) :
    ParseInt (fmtInteger n)
      = (if n < 0 then -(2 ^ 63) else 2 ^ 63 - 1, some NumError.ErrRange) := by
  rw [ParseInt_fmtInteger_finish]
  by_cases hneg : n < 0
  · obtain ⟨m, rfl⟩ : ∃ m : Nat, n = -(m : Int) := ⟨n.natAbs, by omega⟩
    have h63 : m > 2 ^ 63 := by omega
    have hmax : maxUint64 > 2 ^ 63 := by decide
    simp only [Int.natAbs_neg, Int.natAbs_ofNat, hneg, decide_True, if_true]
    split_ifs
    · simp only [parseIntFinish_ok, Bool.not_true, Bool.false_and, Bool.true_and,
        decide_eq_true_eq, if_pos h63, Bool.false_eq_true, if_false]
    · simp only [parseIntFinish_range, Bool.not_true, Bool.false_and, Bool.true_and,
        decide_eq_true_eq, if_pos hmax, Bool.false_eq_true, if_false]
  · obtain ⟨m, rfl⟩ : ∃ m : Nat, n = (m : Int) := ⟨n.natAbs, by omega⟩
    have h63 : m ≥ 2 ^ 63 := by omega
    have hmax : maxUint64 ≥ 2 ^ 63 := by decide
    simp only [Int.natAbs_ofNat, hneg, decide_False, if_false]
    split_ifs
    · simp only [parseIntFinish_ok, Bool.not_false, Bool.true_and, decide_eq_true_eq, if_pos h63]
    · simp only [parseIntFinish_range, Bool.not_false, Bool.true_and, decide_eq_true_eq,
        if_pos hmax]

theorem digitVal_of_not_digit (c : Char) (h : isDecimalDigit c = false) :
    digitVal c = none ∨ ∃ d, d ≥ 10 ∧ digitVal c = some d := by
  simp only [isDecimalDigit, decide_eq_false_iff_not] at h
  simp only [digitVal, if_neg h]
  split_ifs
  · exact Or.inr ⟨_, by omega, rfl⟩
  · exact Or.inl rfl

/-- The digit loop fails on a text that holds a character other than a
decimal digit: with a syntax error, or with a range error met before it. -/
theorem parseUintLoop_not_digit (c : Char) (h : isDecimalDigit c = false) :
    ∀ (cs : List Char) (n : Nat), c ∈ cs →
      parseUintLoop cs n = (0, some NumError.ErrSyntax)
        ∨ parseUintLoop cs n = (maxUint64, some NumError.ErrRange) := by
  intro cs
  induction cs with
  | nil => intro n hc; cases hc
  | cons c0 cs ih =>
    intro n hc
    simp only [parseUintLoop]
    rcases hd : digitVal c0 with _ | d
    · exact Or.inl rfl
    · simp only
      split_ifs with h1 h2 h3
      · exact Or.inl rfl
      · exact Or.inr rfl
      · exact Or.inr rfl
      · rcases List.mem_cons.mp hc with heq | hmem
        · exfalso
          subst heq
          rcases digitVal_of_not_digit c h with hn | ⟨d0, hd0, hs⟩
          · rw [hn] at hd; cases hd
          · rw [hs] at hd; cases hd; omega
        · exact ih _ hmem

theorem parseIntFinish_error (neg : Bool) (r : Nat × Option NumError)
    (h : r = (0, some NumError.ErrSyntax) ∨ r = (maxUint64, some NumError.ErrRange)) :
    (parseIntFinish neg r).2 ≠ none := by
  rcases h with h | h
  · subst h; simp [parseIntFinish]
  · subst h
    cases neg <;> simp [parseIntFinish, maxUint64]

theorem ParseUint_not_digit (c : Char) (h : isDecimalDigit c = false) (cs : List Char)
    (hc : c ∈ cs) :
    ParseUint cs = (0, some NumError.ErrSyntax)
      ∨ ParseUint cs = (maxUint64, some NumError.ErrRange) := by
  cases cs with
  | nil => cases hc
  | cons c0 cs => exact parseUintLoop_not_digit c h (c0 :: cs) 0 hc

/-- A text that holds a character that is neither a sign nor a decimal digit
does not parse. -/
theorem ParseInt_not_digit (s : String) (c : Char) (hc : c ∈ s.data)
    (hplus : c ≠ '+') (hminus : c ≠ '-') (h : isDecimalDigit c = false) :
    (ParseInt s).2 ≠ none := by
  simp only [ParseInt]
  rcases hs : s.data with _ | ⟨c0, cs⟩
  · rw [hs] at hc; cases hc
  · rw [hs] at hc
    simp only
    split_ifs with h1 h2
    · apply parseIntFinish_error
      apply ParseUint_not_digit c h
      rcases List.mem_cons.mp hc with heq | hmem
      · exact absurd (heq.trans h1) hplus
      · exact hmem
    · apply parseIntFinish_error
      apply ParseUint_not_digit c h
      rcases List.mem_cons.mp hc with heq | hmem
      · exact absurd (heq.trans h2) hminus
      · exact hmem
    · apply parseIntFinish_error
      exact ParseUint_not_digit c h _ hc

theorem fmtInteger_ne_empty (n : Int) : fmtInteger n ≠ "" := by
  obtain ⟨d, cs, _, hcs⟩ := fmtDigits_head n.natAbs
  intro h
  have hd : (fmtInteger n).data = [] := by rw [h]
  simp only [fmtInteger, hcs] at hd
  split_ifs at hd

/-! ## Properties -/

/-- C1: `ValidateLimitMarker limit marker` is true exactly when both `limit`
and `marker` are non-negative, for all integers and so for all 64-bit ones; the
pair `(0, 0)` is accepted and a negative argument on either side is refused. -/
theorem ValidateLimitMarker_iff (limit marker : Int) :
    (ValidateLimitMarker limit marker = true ↔ 0 ≤ limit ∧ 0 ≤ marker)
      ∧ ValidateLimitMarker 0 0 = true
      ∧ (limit < 0 ∨ marker < 0 → ValidateLimitMarker limit marker = false) := by
  refine ⟨?_, ?_, ?_⟩
  · simp [ValidateLimitMarker, ValidateLimitMarker.loop]
  · simp [ValidateLimitMarker, ValidateLimitMarker.loop]
  · intro h
    simp only [ValidateLimitMarker, ValidateLimitMarker.loop]
    rcases h with h | h
    · simp [h]
    · simp [h]

/-- C2: when the limit parameter is non-empty and parses as the integer `v`,
`GetLimitFromRequest` returns `MaxLimit` if `MaxLimit > 0` and `v > MaxLimit`,
and `v` otherwise; in particular `v` whenever `MaxLimit ≤ 0`. -/
theorem GetLimitFromRequest_parsed (request : Request) (options : Options) (v : Int)
    (hne : Values.Get request.query options.LimitKeyName ≠ "")
    (hparse : ParseInt (Values.Get request.query options.LimitKeyName) = (v, none)) :
    GetLimitFromRequest request options
        = (if options.MaxLimit > 0 ∧ v > options.MaxLimit then options.MaxLimit else v)
      ∧ (options.MaxLimit ≤ 0 → GetLimitFromRequest request options = v) := by
  have h : GetLimitFromRequest request options
      = (if options.MaxLimit > 0 ∧ v > options.MaxLimit then options.MaxLimit else v) := by
    simp only [GetLimitFromRequest, hparse, if_pos hne]
    simp
  refine ⟨h, fun hmax => ?_⟩
  rw [h, if_neg]
  intro hc
  omega

theorem GetLimitFromRequest_parsed_witness :
    Values.Get [("limit", ["500"])] "limit" ≠ ""
      ∧ ParseInt (Values.Get [("limit", ["500"])] "limit") = (500, none)
      ∧ GetLimitFromRequest ⟨[("limit", ["500"])]⟩ ⟨20, 100, "limit", "offset", "cursor"⟩ = 100
      ∧ GetLimitFromRequest ⟨[("limit", ["500"])]⟩ ⟨20, 0, "limit", "offset", "cursor"⟩ = 500 :=
  ⟨by decide, by decide,
   (GetLimitFromRequest_parsed ⟨[("limit", ["500"])]⟩ ⟨20, 100, "limit", "offset", "cursor"⟩ 500
      (by decide) (by decide)).1,
   (GetLimitFromRequest_parsed ⟨[("limit", ["500"])]⟩ ⟨20, 0, "limit", "offset", "cursor"⟩ 500
      (by decide) (by decide)).2 (by decide)⟩

/-- C3, as stated, fails: with `DefaultLimit = 50` and `MaxLimit = 10` the
request `limit=abc`, whose limit parameter is non-empty and does not parse,
yields `10`, not the default `50`. -/
theorem GetLimitFromRequest_unparsable_not_default :
    Values.Get [("limit", ["abc"])] "limit" ≠ ""
      ∧ (ParseInt (Values.Get [("limit", ["abc"])] "limit")).2 ≠ none
      ∧ GetLimitFromRequest ⟨[("limit", ["abc"])]⟩ ⟨50, 10, "limit", "offset", "cursor"⟩ = 10
      ∧ GetLimitFromRequest ⟨[("limit", ["abc"])]⟩ ⟨50, 10, "limit", "offset", "cursor"⟩
          ≠ (Options.mk 50 10 "limit" "offset" "cursor").DefaultLimit := by
  decide

/-- C3, amended: when the limit parameter is non-empty and does not parse,
`GetLimitFromRequest` returns `DefaultLimit` bounded by the maximum: `MaxLimit`
if `MaxLimit > 0` and `DefaultLimit > MaxLimit`, and `DefaultLimit` otherwise
(so `DefaultLimit` whenever `MaxLimit ≤ 0` or `DefaultLimit ≤ MaxLimit`).  A
text with a character that is neither a sign nor a digit and the decimal
notation of an integer outside the 64-bit range are such parameters. -/
theorem GetLimitFromRequest_unparsable (request : Request) (options : Options) :
    (Values.Get request.query options.LimitKeyName ≠ "" →
        (ParseInt (Values.Get request.query options.LimitKeyName)).2 ≠ none →
        GetLimitFromRequest request options
          = (if options.MaxLimit > 0 ∧ options.DefaultLimit > options.MaxLimit
              then options.MaxLimit else options.DefaultLimit))
      ∧ (∀ c ∈ (Values.Get request.query options.LimitKeyName).data,
          c ≠ '+' → c ≠ '-' → isDecimalDigit c = false →
          GetLimitFromRequest request options
            = (if options.MaxLimit > 0 ∧ options.DefaultLimit > options.MaxLimit
                then options.MaxLimit else options.DefaultLimit))
      ∧ (∀ n : Int, n < -(2 ^ 63) ∨ 2 ^ 63 ≤ n →
          Values.Get request.query options.LimitKeyName = fmtInteger n →
          GetLimitFromRequest request options
            = (if options.MaxLimit > 0 ∧ options.DefaultLimit > options.MaxLimit
                then options.MaxLimit else options.DefaultLimit))
      ∧ (options.MaxLimit ≤ 0 ∨ options.DefaultLimit ≤ options.MaxLimit →
          (if options.MaxLimit > 0 ∧ options.DefaultLimit > options.MaxLimit
              then options.MaxLimit else options.DefaultLimit) = options.DefaultLimit) := by
  have h : Values.Get request.query options.LimitKeyName ≠ "" →
      (ParseInt (Values.Get request.query options.LimitKeyName)).2 ≠ none →
      GetLimitFromRequest request options
        = (if options.MaxLimit > 0 ∧ options.DefaultLimit > options.MaxLimit
            then options.MaxLimit else options.DefaultLimit) := by
    intro hne herr
    simp only [GetLimitFromRequest, if_pos hne]
    rcases hp : ParseInt (Values.Get request.query options.LimitKeyName) with ⟨v, e⟩
    rw [hp] at herr
    simp only [if_pos herr]
  refine ⟨h, ?_, ?_, ?_⟩
  · intro c hc hplus hminus hdigit
    refine h ?_ (ParseInt_not_digit _ c hc hplus hminus hdigit)
    intro hempty
    rw [hempty] at hc
    cases hc
  · intro n hn htext
    refine h ?_ ?_
    · rw [htext]
      exact fmtInteger_ne_empty n
    · rw [htext, ParseInt_fmtInteger_range n hn]
      simp
  · intro hmax
    rw [if_neg]
    intro hc
    omega

theorem GetLimitFromRequest_unparsable_witness :
    Values.Get [("limit", ["abc"])] "limit" ≠ ""
      ∧ (ParseInt (Values.Get [("limit", ["abc"])] "limit")).2 ≠ none
      ∧ GetLimitFromRequest ⟨[("limit", ["abc"])]⟩ ⟨20, 100, "limit", "offset", "cursor"⟩ = 20
      ∧ GetLimitFromRequest ⟨[("limit", ["abc"])]⟩ ⟨50, 10, "limit", "offset", "cursor"⟩ = 10 :=
  ⟨by decide, by decide,
   (GetLimitFromRequest_unparsable ⟨[("limit", ["abc"])]⟩ ⟨20, 100, "limit", "offset", "cursor"⟩).1
      (by decide) (by decide),
   (GetLimitFromRequest_unparsable ⟨[("limit", ["abc"])]⟩ ⟨50, 10, "limit", "offset", "cursor"⟩).1
      (by decide) (by decide)⟩

/-- C4: when the limit parameter is absent from the query or is the empty
string, `GetLimitFromRequest` returns exactly `DefaultLimit`, whatever
`MaxLimit` is. -/
theorem GetLimitFromRequest_absent (request : Request) (options : Options)
    (h : Values.lookup request.query options.LimitKeyName = []
          ∨ Values.Get request.query options.LimitKeyName = "") :
    GetLimitFromRequest request options = options.DefaultLimit := by
  have hget : Values.Get request.query options.LimitKeyName = "" := by
    rcases h with h | h
    · simp [Values.Get, h]
    · exact h
  simp [GetLimitFromRequest, hget]

theorem GetLimitFromRequest_absent_witness :
    (Values.lookup [("offset", ["3"])] "limit" = [] ∨ Values.Get [("offset", ["3"])] "limit" = "")
      ∧ GetLimitFromRequest ⟨[("offset", ["3"])]⟩ ⟨50, 10, "limit", "offset", "cursor"⟩ = 50 :=
  ⟨Or.inl (by decide),
   GetLimitFromRequest_absent ⟨[("offset", ["3"])]⟩ ⟨50, 10, "limit", "offset", "cursor"⟩
     (Or.inl (by decide))⟩

/-- C5: for non-nil `options` and distinct constants `CursorType` and
`OffsetType`, `GetPaginationType` returns `CursorType` exactly when
`GetCursorFromRequest` is positive and `OffsetType` in every other case, among
them a cursor parameter that is absent or empty, does not parse, or parses as
zero or a negative number; the result is always one of the two constants. -/
theorem GetPaginationType_spec (CursorType OffsetType : String) (NewOptions : Options)
    (request : Request) (options : Options) (hdistinct : CursorType ≠ OffsetType) :
    (GetPaginationType CursorType OffsetType NewOptions request (some options) = CursorType
        ↔ GetCursorFromRequest request options > 0)
      ∧ (GetPaginationType CursorType OffsetType NewOptions request (some options) = OffsetType
        ↔ ¬ GetCursorFromRequest request options > 0)
      ∧ (Values.Get request.query options.CursorKeyName = ""
          ∨ (ParseInt (Values.Get request.query options.CursorKeyName)).2 ≠ none
          ∨ (ParseInt (Values.Get request.query options.CursorKeyName)).1 ≤ 0 →
          GetPaginationType CursorType OffsetType NewOptions request (some options) = OffsetType)
      ∧ (GetPaginationType CursorType OffsetType NewOptions request (some options) = CursorType
          ∨ GetPaginationType CursorType OffsetType NewOptions request (some options)
              = OffsetType) := by
  have hne : OffsetType ≠ CursorType := fun h => hdistinct h.symm
  by_cases hc : GetCursorFromRequest request options > 0
  · have hres : GetPaginationType CursorType OffsetType NewOptions request (some options)
        = CursorType := by
      simp [GetPaginationType, hc]
    refine ⟨?_, ?_, ?_, Or.inl hres⟩
    · simp [hres, hc]
    · simp [hres, hc, hdistinct]
    · intro h
      exfalso
      rw [GetCursorFromRequest_unfold] at hc
      rcases h with h | h | h
      · simp [h] at hc
      · simp [h] at hc
      · split_ifs at hc
        · omega
        · omega
        · omega
  · have hres : GetPaginationType CursorType OffsetType NewOptions request (some options)
        = OffsetType := by
      simp [GetPaginationType, hc]
    refine ⟨?_, ?_, fun _ => hres, Or.inr hres⟩
    · simp [hres, hc, hne]
    · simp [hres, hc]

theorem GetPaginationType_spec_witness :
    "cursor" ≠ "offset"
      ∧ GetPaginationType "cursor" "offset" ⟨20, 20, "limit", "offset", "since"⟩
          ⟨[("since", ["7"])]⟩ (some ⟨20, 20, "limit", "offset", "since"⟩) = "cursor"
      ∧ GetPaginationType "cursor" "offset" ⟨20, 20, "limit", "offset", "since"⟩
          ⟨[("since", ["-3"])]⟩ (some ⟨20, 20, "limit", "offset", "since"⟩) = "offset" :=
  ⟨by decide,
   (GetPaginationType_spec "cursor" "offset" ⟨20, 20, "limit", "offset", "since"⟩
      ⟨[("since", ["7"])]⟩ ⟨20, 20, "limit", "offset", "since"⟩ (by decide)).1.2 (by decide),
   (GetPaginationType_spec "cursor" "offset" ⟨20, 20, "limit", "offset", "since"⟩
      ⟨[("since", ["-3"])]⟩ ⟨20, 20, "limit", "offset", "since"⟩ (by decide)).2.1.2 (by decide)⟩

/-- C6: `GetOffsetFromRequest` returns 0 when the offset parameter is absent or
empty or does not parse (a text with a character that is neither a sign nor a
digit, the decimal notation of an integer outside the 64-bit range), and
otherwise exactly the parsed integer: for the decimal notation of a 64-bit
integer that integer, whatever its sign or size. -/
theorem GetOffsetFromRequest_spec (request : Request) (options : Options) :
    (Values.lookup request.query options.OffsetKeyName = []
        ∨ Values.Get request.query options.OffsetKeyName = ""
        ∨ (ParseInt (Values.Get request.query options.OffsetKeyName)).2 ≠ none →
        GetOffsetFromRequest request options = 0)
      ∧ (∀ c ∈ (Values.Get request.query options.OffsetKeyName).data,
          c ≠ '+' → c ≠ '-' → isDecimalDigit c = false →
          GetOffsetFromRequest request options = 0)
      ∧ (∀ n : Int, n < -(2 ^ 63) ∨ 2 ^ 63 ≤ n →
          Values.Get request.query options.OffsetKeyName = fmtInteger n →
          GetOffsetFromRequest request options = 0)
      ∧ (∀ v : Int, Values.Get request.query options.OffsetKeyName ≠ "" →
          ParseInt (Values.Get request.query options.OffsetKeyName) = (v, none) →
          GetOffsetFromRequest request options = v)
      ∧ (∀ n : Int, -(2 ^ 63) ≤ n → n < 2 ^ 63 →
          Values.Get request.query options.OffsetKeyName = fmtInteger n →
          GetOffsetFromRequest request options = n) := by
  have herr : (ParseInt (Values.Get request.query options.OffsetKeyName)).2 ≠ none →
      GetOffsetFromRequest request options = 0 := by
    intro h
    rw [GetOffsetFromRequest_unfold]
    simp [h]
  have hok : ∀ v : Int, Values.Get request.query options.OffsetKeyName ≠ "" →
      ParseInt (Values.Get request.query options.OffsetKeyName) = (v, none) →
      GetOffsetFromRequest request options = v := by
    intro v hne hp
    rw [GetOffsetFromRequest_unfold]
    simp [hne, hp]
  refine ⟨?_, ?_, ?_, hok, ?_⟩
  · intro h
    rcases h with h | h | h
    · rw [GetOffsetFromRequest_unfold]
      simp [Values.Get, h]
    · rw [GetOffsetFromRequest_unfold]
      simp [h]
    · exact herr h
  · intro c hc hplus hminus hdigit
    exact herr (ParseInt_not_digit _ c hc hplus hminus hdigit)
  · intro n hn htext
    apply herr
    rw [htext, ParseInt_fmtInteger_range n hn]
    simp
  · intro n hlo hhi htext
    apply hok
    · rw [htext]
      exact fmtInteger_ne_empty n
    · rw [htext]
      exact ParseInt_fmtInteger n hlo hhi

theorem GetOffsetFromRequest_spec_witness :
    GetOffsetFromRequest ⟨[("offset", ["-5"])]⟩ ⟨20, 100, "limit", "offset", "cursor"⟩ = -5
      ∧ GetOffsetFromRequest ⟨[("offset", ["9223372036854775808"])]⟩
          ⟨20, 100, "limit", "offset", "cursor"⟩ = 0
      ∧ GetOffsetFromRequest ⟨[("offset", ["1x"])]⟩ ⟨20, 100, "limit", "offset", "cursor"⟩ = 0 :=
  ⟨(GetOffsetFromRequest_spec ⟨[("offset", ["-5"])]⟩ ⟨20, 100, "limit", "offset", "cursor"⟩).2.2.2.1
      (-5) (by decide) (by decide),
   (GetOffsetFromRequest_spec ⟨[("offset", ["9223372036854775808"])]⟩
      ⟨20, 100, "limit", "offset", "cursor"⟩).1 (Or.inr (Or.inr (by decide))),
   (GetOffsetFromRequest_spec ⟨[("offset", ["1x"])]⟩
      ⟨20, 100, "limit", "offset", "cursor"⟩).2.1 'x' (by decide) (by decide) (by decide)
      (by decide)⟩

/-- C7: `GetCursorFromRequest` is `GetOffsetFromRequest` run with the cursor key
in the place of the offset key; so it is 0 when the cursor parameter is absent
or empty or does not parse. -/
theorem GetCursorFromRequest_eq_offset (request : Request) (options : Options) :
    GetCursorFromRequest request options
        = GetOffsetFromRequest request { options with OffsetKeyName := options.CursorKeyName }
      ∧ (Values.lookup request.query options.CursorKeyName = []
          ∨ Values.Get request.query options.CursorKeyName = ""
          ∨ (ParseInt (Values.Get request.query options.CursorKeyName)).2 ≠ none →
          GetCursorFromRequest request options = 0) := by
  have heq : GetCursorFromRequest request options
      = GetOffsetFromRequest request { options with OffsetKeyName := options.CursorKeyName } := by
    simp only [GetCursorFromRequest, GetOffsetFromRequest]
  refine ⟨heq, fun h => ?_⟩
  rw [heq, GetOffsetFromRequest_unfold]
  rcases h with h | h | h
  · simp [Values.Get, h]
  · simp [h]
  · simp [h]

/-- C8: `GenerateOffsetURI limit offset options` is the text
`?<LimitKeyName>=<limit>&<OffsetKeyName>=<offset>`, the two numbers in decimal
notation, which is the notation `toString` gives an integer; with the keys
`limit` and `offset`, `(10, 20)` gives `?limit=10&offset=20`. -/
theorem GenerateOffsetURI_spec (F : FmtRest) (limit offset : Int) (options : Options) :
    GenerateOffsetURI F limit offset options
        = "?" ++ options.LimitKeyName ++ "=" ++ fmtInteger limit ++ "&"
            ++ options.OffsetKeyName ++ "=" ++ fmtInteger offset
      ∧ fmtInteger limit = toString limit
      ∧ fmtInteger offset = toString offset
      ∧ GenerateOffsetURI F 10 20 ⟨options.DefaultLimit, options.MaxLimit, "limit", "offset",
          options.CursorKeyName⟩ = "?limit=10&offset=20" := by
  have h : ∀ (a b : Int) (o : Options), GenerateOffsetURI F a b o
      = "?" ++ o.LimitKeyName ++ "=" ++ fmtInteger a ++ "&"
          ++ o.OffsetKeyName ++ "=" ++ fmtInteger b := by
    intro a b o
    simp only [GenerateOffsetURI, Sprintf_uri]
    simp [printArg, int64Value]
  refine ⟨h _ _ _, fmtInteger_eq_toString _, fmtInteger_eq_toString _, ?_⟩
  rw [h, fmtInteger_eq_toString, fmtInteger_eq_toString]
  show "?" ++ "limit" ++ "=" ++ toString (10 : Int) ++ "&" ++ "offset" ++ "=" ++ toString (20 : Int)
    = "?limit=10&offset=20"
  decide

/-- C9: for a cursor that is an integer `c` of any signed or unsigned integer
type, `GenerateCursorURI limit c options` is the text
`?<LimitKeyName>=<limit>&<CursorKeyName>=<c>` with the numbers in decimal
notation, and equals `GenerateOffsetURI limit c` on the options whose offset
key is the cursor key. -/
theorem GenerateCursorURI_integer (F : FmtRest) (limit : Int) (options : Options) :
    (∀ (t : RType) (w : IntWidth) (c : Int),
        GenerateCursorURI F limit (Value.int t w c) options
            = "?" ++ options.LimitKeyName ++ "=" ++ fmtInteger limit ++ "&"
                ++ options.CursorKeyName ++ "=" ++ fmtInteger c
          ∧ GenerateCursorURI F limit (Value.int t w c) options
            = GenerateOffsetURI F limit c
                { options with OffsetKeyName := options.CursorKeyName })
      ∧ (∀ (t : RType) (w : UintWidth) (c : Nat),
        GenerateCursorURI F limit (Value.uint t w c) options
            = "?" ++ options.LimitKeyName ++ "=" ++ fmtInteger limit ++ "&"
                ++ options.CursorKeyName ++ "=" ++ fmtInteger (c : Int)
          ∧ GenerateCursorURI F limit (Value.uint t w c) options
            = GenerateOffsetURI F limit (c : Int)
                { options with OffsetKeyName := options.CursorKeyName }) := by
  refine ⟨fun t w c => ⟨?_, ?_⟩, fun t w c => ⟨?_, ?_⟩⟩ <;>
    simp only [GenerateCursorURI, GenerateOffsetURI, Sprintf_uri] <;>
    simp [printArg, int64Value]

/-- C10, as stated, fails: the nil interface is not of array or slice kind,
yet `Last` does not return an error on it, it panics when it asks the zero
`reflect.Value` for its type. -/
theorem Last_nil_no_error :
    isSequenceKind (derefOnce Value.invalid).Kind = false
      ∧ Last FmtRest.silent Value.invalid "ID" = Outcome.panic
      ∧ ¬ (returnsError (Last FmtRest.silent Value.invalid "ID") = true
            ↔ isSequenceKind (derefOnce Value.invalid).Kind = false) := by
  refine ⟨rfl, rfl, ?_⟩
  intro h
  have h1 : returnsError (Last FmtRest.silent Value.invalid "ID") = false := rfl
  have h2 := h.2 rfl
  rw [h1] at h2
  cases h2

/-- C10, amended: for an argument that, after dereferencing at most one
pointer level, is a value (not the nil interface, not what a nil pointer points
to), `Last` returns an error exactly when that value is not of array or slice
kind; the value returned with the error is the `int` 0 and the message is
`Type <T> is not supported by Last` with `<T>` the text of the type of that
value; and whenever `Last` returns on an array or slice the error is nil. -/
theorem Last_error_iff (F : FmtRest) (arr : Value) (field : String)
    (hvalid : (derefOnce arr).Kind ≠ Kind.Invalid) :
    (returnsError (Last F arr field) = true ↔ isSequenceKind (derefOnce arr).Kind = false)
      ∧ (isSequenceKind (derefOnce arr).Kind = false →
          ∃ T, (derefOnce arr).Type = Outcome.ret T
            ∧ Last F arr field
                = Outcome.ret (intValue 0, some ("Type " ++ T.str ++ " is not supported by Last")))
      ∧ (isSequenceKind (derefOnce arr).Kind = true →
          ∀ v e, Last F arr field = Outcome.ret (v, e) → e = none) := by
  obtain ⟨T, hT⟩ := Value.Type_of_valid _ hvalid
  have hlast := Last_of_valid F arr field T hT
  by_cases hseq : isSequenceKind (derefOnce arr).Kind = true
  · rw [if_pos hseq] at hlast
    refine ⟨?_, ?_, ?_⟩
    · rw [hlast, hseq]
      constructor
      · intro herr
        exfalso
        rcases hl : lastOfSequence (derefOnce arr) field with ⟨v, e⟩ | _
        · have := lastOfSequence_error _ _ _ _ hl
          subst this
          rw [hl] at herr
          simp [returnsError] at herr
        · rw [hl] at herr
          simp [returnsError] at herr
      · intro hc
        cases hc
    · intro hc
      rw [hseq] at hc
      cases hc
    · intro _ v e hret
      rw [hlast] at hret
      exact lastOfSequence_error _ _ _ _ hret
  · rw [if_neg hseq] at hlast
    have hfalse : isSequenceKind (derefOnce arr).Kind = false := by
      simpa using hseq
    refine ⟨?_, ?_, ?_⟩
    · rw [hlast, hfalse]
      simp [returnsError]
    · intro _
      exact ⟨T, hT, hlast⟩
    · intro hc
      exact absurd hc hseq

theorem Last_error_iff_witness :
    (derefOnce (Value.ptr ⟨"", "*main.Rec"⟩
        (some (Value.struct ⟨"main", "main.Rec"⟩ [("ID", true, false, int64Value 7)])))).Kind
        ≠ Kind.Invalid
      ∧ Last FmtRest.silent (Value.ptr ⟨"", "*main.Rec"⟩
          (some (Value.struct ⟨"main", "main.Rec"⟩ [("ID", true, false, int64Value 7)]))) "ID"
        = Outcome.ret (intValue 0, some "Type main.Rec is not supported by Last") := by
  have h := (Last_error_iff FmtRest.silent (Value.ptr ⟨"", "*main.Rec"⟩
      (some (Value.struct ⟨"main", "main.Rec"⟩ [("ID", true, false, int64Value 7)]))) "ID"
      (by decide)).2.1 rfl
  obtain ⟨T, hT, hl⟩ := h
  refine ⟨by decide, ?_⟩
  rw [hl]
  cases hT
  rfl

/-! ## Facts about the search for a field -/

theorem searchLevels_nil (name : String) (fuel : Nat) :
    searchLevels name fuel [] = Outcome.ret (Value.invalid, false) := by
  cases fuel <;> rfl

theorem embeddedStruct_depth (v : Value) (fs : List Field) (isNil : Bool)
    (h : embeddedStruct v = some (fs, isNil)) : fieldsDepth fs + 1 ≤ structDepth v := by
  cases v with
  | struct t fields =>
    simp only [embeddedStruct, Option.some.injEq, Prod.mk.injEq] at h
    rw [← h.1]
    simp [structDepth]
  | ptr t elem =>
    cases elem with
    | none => simp [embeddedStruct] at h
    | some x =>
      cases x with
      | struct t2 fields =>
        simp only [embeddedStruct, Option.some.injEq, Prod.mk.injEq] at h
        rw [← h.1]
        simp [structDepth]
      | _ => simp [embeddedStruct] at h
  | nilPtr t z =>
    cases z with
    | struct t2 fields =>
      simp only [embeddedStruct, Option.some.injEq, Prod.mk.injEq] at h
      rw [← h.1]
      simp [structDepth]
    | _ => simp [embeddedStruct] at h
  | _ => simp [embeddedStruct] at h

theorem levelDepth_append (a b : List (List Field × Bool)) :
    levelDepth (a ++ b) = max (levelDepth a) (levelDepth b) := by
  induction a with
  | nil => simp [levelDepth]
  | cons x a ih =>
    obtain ⟨fs, n⟩ := x
    show levelDepth ((fs, n) :: (a ++ b)) = _
    simp only [levelDepth, ih]
    omega

theorem embeddedOfFields_depth (viaNil : Bool) (fs : List Field) :
    embeddedOfFields viaNil fs = [] ∨ levelDepth (embeddedOfFields viaNil fs) + 1 ≤ fieldsDepth fs := by
  induction fs with
  | nil => exact Or.inl rfl
  | cons f rest ih =>
    obtain ⟨n, e, emb, v⟩ := f
    simp only [embeddedOfFields, fieldsDepth]
    cases emb with
    | false =>
      simp only [Bool.false_eq_true, if_false]
      rcases ih with h | h
      · exact Or.inl h
      · right; omega
    | true =>
      simp only [if_true]
      rcases hs : embeddedStruct v with _ | ⟨fs2, isNil⟩
      · simp only
        rcases ih with h | h
        · exact Or.inl h
        · right; omega
      · simp only
        right
        have hd := embeddedStruct_depth v fs2 isNil hs
        simp only [levelDepth]
        rcases ih with h | h
        · rw [h]
          simp only [levelDepth]
          omega
        · omega

theorem nextLevel_depth (level : List (List Field × Bool)) :
    nextLevel level = [] ∨ levelDepth (nextLevel level) + 1 ≤ levelDepth level := by
  induction level with
  | nil => exact Or.inl rfl
  | cons x rest ih =>
    obtain ⟨fs, n⟩ := x
    simp only [nextLevel, levelDepth, levelDepth_append]
    rcases embeddedOfFields_depth n fs with h1 | h1 <;> rcases ih with h2 | h2
    · left; simp [h1, h2]
    · right; rw [h1]; simp only [levelDepth]; omega
    · right; rw [h2]; simp only [levelDepth]; omega
    · right; omega

/-- More levels than the structs of a level have below them do not change the
outcome of the search: the levels `FieldByName` allows for are enough. -/
theorem searchLevels_fuel (name : String) : ∀ (fuel : Nat) (level : List (List Field × Bool))
    (k : Nat), levelDepth level < fuel →
    searchLevels name (fuel + k) level = searchLevels name fuel level := by
  intro fuel
  induction fuel with
  | zero => intro level k h; omega
  | succ fuel ih =>
    intro level k h
    have hk : fuel + 1 + k = (fuel + k) + 1 := by omega
    rw [hk]
    cases level with
    | nil => rfl
    | cons x rest =>
      simp only [searchLevels]
      rcases hm : matchesInLevel name (x :: rest) with _ | ⟨m, ms⟩
      · simp only
        rcases nextLevel_depth (x :: rest) with hn | hn
        · rw [hn, searchLevels_nil, searchLevels_nil]
        · exact ih _ k (by omega)
      · cases ms <;> rfl

/-- The field a struct declares itself is the one `FieldByName` gives. -/
theorem FieldByName_declared (t : RType) (fields : List Field) (name : String)
    (r : Value × Bool) (h : lookupField fields name = some r) :
    (Value.struct t fields).FieldByName name = Outcome.ret r := by
  simp only [Value.FieldByName, h]

/-- The search of `FieldByName` with any number of further levels allowed. -/
theorem FieldByName_fuel (t : RType) (fields : List Field) (name : String) (k : Nat)
    (hdecl : lookupField fields name = none) (hemb : hasEmbeds fields = true) :
    (Value.struct t fields).FieldByName name
      = searchLevels name (fieldsDepth fields + 1 + k) [(fields, false)] := by
  simp only [Value.FieldByName, hdecl, hemb, if_true]
  rw [searchLevels_fuel name (fieldsDepth fields + 1) [(fields, false)] k
    (by simp [levelDepth])]

/-- The search for a field on small records, as `reflect` resolves them: a
field of an embedded struct is found through the struct and through a pointer
to it; a nil embedded pointer on the way makes the access panic; two fields of
the name on one depth cancel each other; a field on a smaller depth hides the
deeper ones; an exported field reached through an unexported embedded struct
is not read-only, an unexported field is. -/
theorem FieldByName_promoted_examples :
    (Value.struct ⟨"main", "main.RecE"⟩
        [("Base", true, true,
          Value.struct ⟨"main", "main.Base"⟩ [("ID", true, false, int64Value 5)])]).FieldByName
        "ID" = Outcome.ret (int64Value 5, false)
      ∧ (Value.struct ⟨"main", "main.RecP"⟩
        [("Base", true, true, Value.ptr ⟨"", "*main.Base"⟩
          (some (Value.struct ⟨"main", "main.Base"⟩
            [("ID", true, false, int64Value 6)])))]).FieldByName
        "ID" = Outcome.ret (int64Value 6, false)
      ∧ (Value.struct ⟨"main", "main.RecP"⟩
        [("Base", true, true, Value.nilPtr ⟨"", "*main.Base"⟩
          (Value.struct ⟨"main", "main.Base"⟩ [("ID", true, false, int64Value 0)]))]).FieldByName
        "ID" = Outcome.panic
      ∧ (Value.struct ⟨"main", "main.RecA"⟩
        [("Base", true, true,
          Value.struct ⟨"main", "main.Base"⟩ [("ID", true, false, int64Value 5)]),
         ("Other", true, true,
          Value.struct ⟨"main", "main.Other"⟩ [("ID", true, false, int64Value 9)])]).FieldByName
        "ID" = Outcome.ret (Value.invalid, false)
      ∧ (Value.struct ⟨"main", "main.RecS"⟩
        [("Base", true, true,
          Value.struct ⟨"main", "main.Base"⟩ [("ID", true, false, int64Value 5)]),
         ("ID", true, false, int64Value 1)]).FieldByName
        "ID" = Outcome.ret (int64Value 1, false)
      ∧ (Value.struct ⟨"main", "main.RecD"⟩
        [("Mid", true, true, Value.struct ⟨"main", "main.Mid"⟩
          [("Base", true, true,
            Value.struct ⟨"main", "main.Base"⟩ [("ID", true, false, int64Value 5)])]),
         ("Other", true, true,
          Value.struct ⟨"main", "main.Other"⟩ [("ID", true, false, int64Value 9)])]).FieldByName
        "ID" = Outcome.ret (int64Value 9, false)
      ∧ (Value.struct ⟨"main", "main.RecU"⟩
        [("base", false, true, Value.struct ⟨"main", "main.base"⟩
          [("ID", true, false, int64Value 5), ("id", false, false, int64Value 3)])]).FieldByName
        "ID" = Outcome.ret (int64Value 5, false)
      ∧ (Value.struct ⟨"main", "main.RecU"⟩
        [("base", false, true, Value.struct ⟨"main", "main.base"⟩
          [("ID", true, false, int64Value 5), ("id", false, false, int64Value 3)])]).FieldByName
        "id" = Outcome.ret (int64Value 3, true) :=
  ⟨rfl, rfl, rfl, rfl, rfl, rfl, rfl, rfl⟩

/-! ## Facts about `Last` and the extractors -/

theorem lastOfSequence_slice_nil (t : RType) (field : String) :
    lastOfSequence (Value.slice t []) field = Outcome.ret (intValue 0, none) := rfl

theorem lastOfSequence_array_nil (t : RType) (field : String) :
    lastOfSequence (Value.array t []) field = Outcome.ret (intValue 0, none) := rfl

theorem get?_length_sub_one_concat (front : List Value) (item : Value) :
    (front ++ [item]).get? ((front ++ [item]).length - 1) = some item := by
  simp

theorem lastOfSequence_slice_concat (t : RType) (front : List Value) (item : Value)
    (field : String) :
    lastOfSequence (Value.slice t (front ++ [item])) field = lastOfItem item field := by
  have hlen : ¬ ((front ++ [item]).length = 0) := by simp
  simp only [lastOfSequence, bind, Outcome.bind, Value.Len, if_neg hlen, Value.Index,
    get?_length_sub_one_concat, lastOfItem]

theorem lastOfSequence_array_concat (t : RType) (front : List Value) (item : Value)
    (field : String) :
    lastOfSequence (Value.array t (front ++ [item])) field = lastOfItem item field := by
  have hlen : ¬ ((front ++ [item]).length = 0) := by simp
  simp only [lastOfSequence, bind, Outcome.bind, Value.Len, if_neg hlen, Value.Index,
    get?_length_sub_one_concat, lastOfItem]

theorem lastOfItem_int (item : Value) (ft : RType) (field : String)
    (w : IntWidth) (v : Int) (ro : Bool)
    (h : item.FieldByName field = Outcome.ret (Value.int ft w v, ro)) :
    lastOfItem item field = Outcome.ret (int64Value v, none) := by
  have hk : ¬ ((Value.int ft w v).Kind = Kind.Struct) := by
    cases w <;> simp [Value.Kind, IntWidth.kind]
  simp only [lastOfItem, bind, Outcome.bind, h, if_neg hk, Value.Int, pure]

theorem lastOfItem_time (item : Value) (tf : List Field) (field : String)
    (h : item.FieldByName field = Outcome.ret (Value.struct RType.time tf, false)) :
    lastOfItem item field = Outcome.ret (Value.struct RType.time tf, none) := by
  simp only [lastOfItem, bind, Outcome.bind, h, Value.Kind, if_true, Value.Interface,
    assertTime, pure]

/-- The slice and the array are the values of a sequence kind. -/
theorem isSequenceKind_cases (value : Value) (h : isSequenceKind value.Kind = true) :
    (∃ t xs, value = Value.slice t xs) ∨ (∃ t xs, value = Value.array t xs) := by
  cases value with
  | slice t xs => exact Or.inl ⟨t, xs, rfl⟩
  | array t xs => exact Or.inr ⟨t, xs, rfl⟩
  | int t w v => cases w <;> simp [isSequenceKind, Value.Kind, IntWidth.kind] at h
  | uint t w v => cases w <;> simp [isSequenceKind, Value.Kind, UintWidth.kind] at h
  | other t k => cases k <;> simp [isSequenceKind, Value.Kind, OtherKind.kind] at h
  | _ => simp [isSequenceKind, Value.Kind] at h

theorem lastOfItem_returns (item : Value) (field : String) :
    (lastOfItem item field).returns = fieldReturnable item field := by
  simp only [lastOfItem, fieldReturnable, bind, Outcome.bind]
  rcases hl : item.FieldByName field with ⟨v, ro⟩ | _
  · cases v with
    | int t w x =>
      have hk : ¬ ((Value.int t w x).Kind = Kind.Struct) := by
        cases w <;> simp [Value.Kind, IntWidth.kind]
      simp only [if_neg hk, Value.Int, pure, Outcome.returns]
    | uint t w x =>
      have hk : ¬ ((Value.uint t w x).Kind = Kind.Struct) := by
        cases w <;> simp [Value.Kind, UintWidth.kind]
      simp only [if_neg hk, Value.Int, Outcome.returns]
    | other t k =>
      have hk : ¬ ((Value.other t k).Kind = Kind.Struct) := by
        cases k <;> simp [Value.Kind, OtherKind.kind]
      simp only [if_neg hk, Value.Int, Outcome.returns]
    | struct t tf =>
      cases ro with
      | true => simp [Value.Kind, Value.Interface, Outcome.returns]
      | false =>
        by_cases ht : t = RType.time
        · simp [Value.Kind, Value.Interface, assertTime, ht, pure, Outcome.returns]
        · simp [Value.Kind, Value.Interface, assertTime, ht, Outcome.returns]
    | _ => simp [Value.Kind, Value.Int, Outcome.returns]
  · rfl

theorem getLast?_append_singleton (front : List Value) (item : Value) :
    (front ++ [item]).getLast? = some item := by
  simp

theorem Last_of_invalid (F : FmtRest) (arr : Value) (field : String)
    (h : (derefOnce arr).Kind = Kind.Invalid) : Last F arr field = Outcome.panic := by
  have hinv : ∀ v : Value, v.Kind = Kind.Invalid → v = Value.invalid := by
    intro v hv
    cases v with
    | invalid => rfl
    | int t w x => cases w <;> simp [Value.Kind, IntWidth.kind] at hv
    | uint t w x => cases w <;> simp [Value.Kind, UintWidth.kind] at hv
    | other t k => cases k <;> simp [Value.Kind, OtherKind.kind] at hv
    | _ => simp [Value.Kind] at hv
  have hd := hinv _ h
  cases arr with
  | ptr t elem =>
    cases elem with
    | none => rfl
    | some v =>
      have hv : v = Value.invalid := hd
      subst hv
      rfl
  | nilPtr t z => rfl
  | invalid => rfl
  | _ => simp [derefOnce] at hd

/-- `Last` returns exactly on the arguments on which it is defined. -/
theorem Last_returns_eq (F : FmtRest) (arr : Value) (field : String) :
    (Last F arr field).returns = lastDefined arr field := by
  by_cases hinv : (derefOnce arr).Kind = Kind.Invalid
  · rw [Last_of_invalid F arr field hinv]
    simp [lastDefined, hinv, Outcome.returns]
  · obtain ⟨T, hT⟩ := Value.Type_of_valid _ hinv
    rw [Last_of_valid F arr field T hT]
    simp only [lastDefined, if_neg hinv]
    by_cases hseq : isSequenceKind (derefOnce arr).Kind = true
    · have hf : ¬ (isSequenceKind (derefOnce arr).Kind = false) := by simp [hseq]
      rw [if_pos hseq, if_neg hf]
      rcases isSequenceKind_cases _ hseq with ⟨t, xs, hv⟩ | ⟨t, xs, hv⟩
      · rw [hv]
        rcases List.eq_nil_or_concat xs with hx | ⟨front, item, hx⟩
        · subst hx; rfl
        · subst hx
          simp only [List.concat_eq_append, seqElems, getLast?_append_singleton]
          rw [lastOfSequence_slice_concat, lastOfItem_returns]
      · rw [hv]
        rcases List.eq_nil_or_concat xs with hx | ⟨front, item, hx⟩
        · subst hx; rfl
        · subst hx
          simp only [List.concat_eq_append, seqElems, getLast?_append_singleton]
          rw [lastOfSequence_array_concat, lastOfItem_returns]
    · have hf : isSequenceKind (derefOnce arr).Kind = false := by simpa using hseq
      rw [if_neg hseq, if_pos hf]
      rfl

theorem eq_concat_of_get?_last (xs : List Value) (item : Value)
    (h : xs.get? (xs.length - 1) = some item) : ∃ front, xs = front ++ [item] := by
  rcases List.eq_nil_or_concat xs with hx | ⟨front, y, hx⟩
  · subst hx; simp at h
  · subst hx
    simp only [List.concat_eq_append, get?_length_sub_one_concat] at h
    cases h
    exact ⟨front, by simp⟩

theorem eq_concat_of_getLast? (xs : List Value) (item : Value)
    (h : xs.getLast? = some item) : ∃ front, xs = front ++ [item] := by
  rcases List.eq_nil_or_concat xs with hx | ⟨front, y, hx⟩
  · subst hx; simp at h
  · subst hx
    simp only [List.concat_eq_append, getLast?_append_singleton] at h
    cases h
    exact ⟨front, by simp⟩

theorem Last_slice (F : FmtRest) (t : RType) (xs : List Value) (field : String) :
    Last F (Value.slice t xs) field = lastOfSequence (Value.slice t xs) field := by
  rw [Last_of_valid F (Value.slice t xs) field t rfl]
  rfl

theorem Last_array (F : FmtRest) (t : RType) (xs : List Value) (field : String) :
    Last F (Value.array t xs) field = lastOfSequence (Value.array t xs) field := by
  rw [Last_of_valid F (Value.array t xs) field t rfl]
  rfl

theorem Last_ptr_slice (F : FmtRest) (pt t : RType) (xs : List Value) (field : String) :
    Last F (Value.ptr pt (some (Value.slice t xs))) field
      = lastOfSequence (Value.slice t xs) field := by
  rw [Last_of_pointer F pt (Value.slice t xs) field t rfl]
  rfl

theorem Last_ptr_array (F : FmtRest) (pt t : RType) (xs : List Value) (field : String) :
    Last F (Value.ptr pt (some (Value.array t xs))) field
      = lastOfSequence (Value.array t xs) field := by
  rw [Last_of_pointer F pt (Value.array t xs) field t rfl]
  rfl

/-- The limit extractor as a function of the text under the limit key. -/
theorem GetLimitFromRequest_unfold (request : Request) (options : Options) :
    GetLimitFromRequest request options
      = (if Values.Get request.query options.LimitKeyName = "" then options.DefaultLimit
          else if options.MaxLimit > 0
              ∧ (if (ParseInt (Values.Get request.query options.LimitKeyName)).2 ≠ none
                  then options.DefaultLimit
                  else (ParseInt (Values.Get request.query options.LimitKeyName)).1)
                > options.MaxLimit
            then options.MaxLimit
          else if (ParseInt (Values.Get request.query options.LimitKeyName)).2 ≠ none
            then options.DefaultLimit
          else (ParseInt (Values.Get request.query options.LimitKeyName)).1) := by
  simp only [GetLimitFromRequest]
  by_cases h : Values.Get request.query options.LimitKeyName = ""
  · simp [h]
  · rcases hp : ParseInt (Values.Get request.query options.LimitKeyName) with ⟨v, e⟩
    simp [h]

/-! ## Properties of `Last` and of the extractors -/

/-- C11: for a slice or array whose element at index `len - 1` is a record in
which the field named `field`, declared in the record or promoted from an
embedded struct as `reflect` resolves it, is of a signed integer kind with
value `v`, `Last` returns `v` as an `int64` and no error; and `Last` on a
pointer to that sequence returns what `Last` returns on the sequence. -/
theorem Last_integer_field (F : FmtRest) (t pt ft : RType) (xs : List Value) (item : Value)
    (field : String) (w : IntWidth) (v : Int) (ro : Bool)
    (hitem : xs.get? (xs.length - 1) = some item)
    (hfield : item.FieldByName field = Outcome.ret (Value.int ft w v, ro)) :
    Last F (Value.slice t xs) field = Outcome.ret (int64Value v, none)
      ∧ Last F (Value.array t xs) field = Outcome.ret (int64Value v, none)
      ∧ Last F (Value.ptr pt (some (Value.slice t xs))) field = Last F (Value.slice t xs) field
      ∧ Last F (Value.ptr pt (some (Value.array t xs))) field
          = Last F (Value.array t xs) field := by
  obtain ⟨front, rfl⟩ := eq_concat_of_get?_last xs _ hitem
  refine ⟨?_, ?_, ?_, ?_⟩
  · rw [Last_slice, lastOfSequence_slice_concat, lastOfItem_int item ft field w v ro hfield]
  · rw [Last_array, lastOfSequence_array_concat, lastOfItem_int item ft field w v ro hfield]
  · rw [Last_ptr_slice, Last_slice]
  · rw [Last_ptr_array, Last_array]

theorem Last_integer_field_witness :
    (Last FmtRest.silent (Value.ptr ⟨"", "*[]main.Rec"⟩ (some (Value.slice ⟨"", "[]main.Rec"⟩
        [Value.struct ⟨"main", "main.Rec"⟩ [("ID", true, false, int64Value 1)],
         Value.struct ⟨"main", "main.Rec"⟩ [("ID", true, false, int64Value 2)],
         Value.struct ⟨"main", "main.Rec"⟩ [("ID", true, false, int64Value 3)]]))) "ID"
        = Outcome.ret (int64Value 3, none))
      ∧ Last FmtRest.silent (Value.slice ⟨"", "[]main.RecE"⟩
          [Value.struct ⟨"main", "main.RecE"⟩
            [("Base", true, true,
              Value.struct ⟨"main", "main.Base"⟩ [("ID", true, false, int64Value 5)])]]) "ID"
        = Outcome.ret (int64Value 5, none)
      ∧ Last FmtRest.silent (Value.slice ⟨"", "[]main.RecP"⟩
          [Value.struct ⟨"main", "main.RecP"⟩
            [("Base", true, true, Value.ptr ⟨"", "*main.Base"⟩
              (some (Value.struct ⟨"main", "main.Base"⟩ [("id", false, false, intValue 6)])))]])
          "id"
        = Outcome.ret (int64Value 6, none) := by
  have h1 := Last_integer_field FmtRest.silent ⟨"", "[]main.Rec"⟩ ⟨"", "*[]main.Rec"⟩
    RType.int64
    [Value.struct ⟨"main", "main.Rec"⟩ [("ID", true, false, int64Value 1)],
     Value.struct ⟨"main", "main.Rec"⟩ [("ID", true, false, int64Value 2)],
     Value.struct ⟨"main", "main.Rec"⟩ [("ID", true, false, int64Value 3)]]
    (Value.struct ⟨"main", "main.Rec"⟩ [("ID", true, false, int64Value 3)])
    "ID" IntWidth.W64 3 false rfl rfl
  have h2 := Last_integer_field FmtRest.silent ⟨"", "[]main.RecE"⟩ ⟨"", "*[]main.RecE"⟩
    RType.int64
    [Value.struct ⟨"main", "main.RecE"⟩
      [("Base", true, true,
        Value.struct ⟨"main", "main.Base"⟩ [("ID", true, false, int64Value 5)])]]
    (Value.struct ⟨"main", "main.RecE"⟩
      [("Base", true, true,
        Value.struct ⟨"main", "main.Base"⟩ [("ID", true, false, int64Value 5)])])
    "ID" IntWidth.W64 5 false rfl rfl
  have h3 := Last_integer_field FmtRest.silent ⟨"", "[]main.RecP"⟩ ⟨"", "*[]main.RecP"⟩
    RType.int
    [Value.struct ⟨"main", "main.RecP"⟩
      [("Base", true, true, Value.ptr ⟨"", "*main.Base"⟩
        (some (Value.struct ⟨"main", "main.Base"⟩ [("id", false, false, intValue 6)])))]]
    (Value.struct ⟨"main", "main.RecP"⟩
      [("Base", true, true, Value.ptr ⟨"", "*main.Base"⟩
        (some (Value.struct ⟨"main", "main.Base"⟩ [("id", false, false, intValue 6)])))])
    "id" IntWidth.W 6 true rfl rfl
  exact ⟨h1.2.2.1.trans h1.1, h2.1, h3.1⟩

/-- C12: on an empty slice or array, and on a pointer to one, `Last` returns
the integer 0 and no error, whatever the field name is; no field is looked
up. -/
theorem Last_empty (F : FmtRest) (t pt : RType) (field : String) :
    Last F (Value.slice t []) field = Outcome.ret (intValue 0, none)
      ∧ Last F (Value.array t []) field = Outcome.ret (intValue 0, none)
      ∧ Last F (Value.ptr pt (some (Value.slice t []))) field = Outcome.ret (intValue 0, none)
      ∧ Last F (Value.ptr pt (some (Value.array t []))) field
          = Outcome.ret (intValue 0, none) := by
  refine ⟨?_, ?_, ?_, ?_⟩
  · rw [Last_slice, lastOfSequence_slice_nil]
  · rw [Last_array, lastOfSequence_array_nil]
  · rw [Last_ptr_slice, lastOfSequence_slice_nil]
  · rw [Last_ptr_array, lastOfSequence_array_nil]

/-- C13, as stated, fails: `Last` panics on a non-empty slice whose records
have no field of the given name, on a field of an unsigned integer kind, on a
string field, on a struct field that is not a `time.Time`, and on the nil
interface; in none of these calls does it return a value or an error. -/
theorem Last_panics :
    Last FmtRest.silent (Value.slice ⟨"", "[]main.Rec"⟩
        [Value.struct ⟨"main", "main.Rec"⟩ [("ID", true, false, int64Value 7)]]) "Nope"
          = Outcome.panic
      ∧ Last FmtRest.silent (Value.slice ⟨"", "[]main.Rec"⟩
        [Value.struct ⟨"main", "main.Rec"⟩
          [("ID", true, false, Value.uint ⟨"", "uint64"⟩ UintWidth.W64 7)]]) "ID"
          = Outcome.panic
      ∧ Last FmtRest.silent (Value.slice ⟨"", "[]main.Rec"⟩
        [Value.struct ⟨"main", "main.Rec"⟩ [("Name", true, false, stringValue "a")]]) "Name"
          = Outcome.panic
      ∧ Last FmtRest.silent (Value.slice ⟨"", "[]main.Rec"⟩
        [Value.struct ⟨"main", "main.Rec"⟩
          [("Pos", true, false,
            Value.struct ⟨"main", "main.Point"⟩ [("X", true, false, intValue 1)])]]) "Pos"
          = Outcome.panic
      ∧ Last FmtRest.silent Value.invalid "ID" = Outcome.panic
      ∧ (Last FmtRest.silent (Value.slice ⟨"", "[]main.Rec"⟩
        [Value.struct ⟨"main", "main.Rec"⟩
          [("ID", true, false, Value.uint ⟨"", "uint64"⟩ UintWidth.W64 7)]]) "ID").returns
          = false :=
  ⟨rfl, rfl, rfl, rfl, rfl, rfl⟩

/-- C13, amended: `Last` returns a value or an explicit error result, without
aborting, for every argument that after dereferencing at most one pointer
level is a value and is not an array or slice (the error), or is an empty
array or slice, or is a non-empty one whose last element is a record in which
the field of the given name, declared in the record or promoted from an
embedded struct as `reflect` resolves it, is of a signed integer kind or is an
exported field of type `time.Time`. -/
theorem Last_returns_on_defined (F : FmtRest) (arr : Value) (field : String)
    (hdefined : lastDefined arr field = true) :
    ∃ (v : Value) (e : Option String), Last F arr field = Outcome.ret (v, e) := by
  have h := Last_returns_eq F arr field
  rw [hdefined] at h
  rcases hl : Last F arr field with ⟨v, e⟩ | _
  · exact ⟨v, e, rfl⟩
  · rw [hl] at h
    cases h

theorem Last_returns_on_defined_witness :
    lastDefined (Value.slice ⟨"", "[]main.Rec"⟩
        [Value.struct ⟨"main", "main.Rec"⟩ [("ID", true, false, int64Value 7)]]) "ID" = true
      ∧ (∃ (v : Value) (e : Option String),
          Last FmtRest.silent (Value.slice ⟨"", "[]main.Rec"⟩
            [Value.struct ⟨"main", "main.Rec"⟩ [("ID", true, false, int64Value 7)]]) "ID"
            = Outcome.ret (v, e))
      ∧ lastDefined (Value.slice ⟨"", "[]main.RecE"⟩
          [Value.struct ⟨"main", "main.RecE"⟩
            [("Base", true, true,
              Value.struct ⟨"main", "main.Base"⟩ [("ID", true, false, int64Value 5)])]]) "ID"
          = true
      ∧ (∃ (v : Value) (e : Option String),
          Last FmtRest.silent (Value.slice ⟨"", "[]main.RecE"⟩
            [Value.struct ⟨"main", "main.RecE"⟩
              [("Base", true, true,
                Value.struct ⟨"main", "main.Base"⟩ [("ID", true, false, int64Value 5)])]]) "ID"
            = Outcome.ret (v, e)) :=
  ⟨rfl,
   Last_returns_on_defined FmtRest.silent (Value.slice ⟨"", "[]main.Rec"⟩
      [Value.struct ⟨"main", "main.Rec"⟩ [("ID", true, false, int64Value 7)]]) "ID" rfl,
   rfl,
   Last_returns_on_defined FmtRest.silent (Value.slice ⟨"", "[]main.RecE"⟩
      [Value.struct ⟨"main", "main.RecE"⟩
        [("Base", true, true,
          Value.struct ⟨"main", "main.Base"⟩ [("ID", true, false, int64Value 5)])]]) "ID" rfl⟩

/-- C14, as stated, fails: on a slice of records whose unexported field
`createdAt` holds a `time.Time`, `Last` panics, as `reflect` does not hand out
the value of an unexported field. -/
theorem Last_unexported_time_panics :
    (Value.struct ⟨"main", "main.Rec"⟩
        [("createdAt", false, false, timeValue 0 1700000000)]).FieldByName "createdAt"
        = Outcome.ret (timeValue 0 1700000000, true)
      ∧ Last FmtRest.silent (Value.slice ⟨"", "[]main.Rec"⟩
          [Value.struct ⟨"main", "main.Rec"⟩
            [("createdAt", false, false, timeValue 0 1700000000)]])
          "createdAt" = Outcome.panic :=
  ⟨rfl, rfl⟩

/-- C14, amended: for a slice or array whose last element is a record in which
the exported field named `field`, declared in the record or promoted from an
embedded struct as `reflect` resolves it, holds a `time.Time`, `Last` returns
exactly that `time.Time` value, not an integer, and no error. -/
theorem Last_time_field (F : FmtRest) (t : RType) (xs : List Value) (item : Value)
    (tf : List Field) (field : String)
    (hitem : xs.getLast? = some item)
    (hfield : item.FieldByName field = Outcome.ret (Value.struct RType.time tf, false)) :
    Last F (Value.slice t xs) field = Outcome.ret (Value.struct RType.time tf, none)
      ∧ Last F (Value.array t xs) field = Outcome.ret (Value.struct RType.time tf, none) := by
  obtain ⟨front, rfl⟩ := eq_concat_of_getLast? xs _ hitem
  refine ⟨?_, ?_⟩
  · rw [Last_slice, lastOfSequence_slice_concat, lastOfItem_time item tf field hfield]
  · rw [Last_array, lastOfSequence_array_concat, lastOfItem_time item tf field hfield]

theorem Last_time_field_witness :
    Last FmtRest.silent (Value.slice ⟨"", "[]main.Rec"⟩
        [Value.struct ⟨"main", "main.Rec"⟩ [("CreatedAt", true, false, timeValue 0 1600000000)],
         Value.struct ⟨"main", "main.Rec"⟩ [("CreatedAt", true, false, timeValue 0 1700000000)]])
        "CreatedAt" = Outcome.ret (timeValue 0 1700000000, none)
      ∧ Last FmtRest.silent (Value.slice ⟨"", "[]main.RecT"⟩
          [Value.struct ⟨"main", "main.RecT"⟩
            [("stamps", false, true, Value.struct ⟨"main", "main.stamps"⟩
              [("CreatedAt", true, false, timeValue 0 1700000000)])]])
          "CreatedAt" = Outcome.ret (timeValue 0 1700000000, none) :=
  ⟨(Last_time_field FmtRest.silent ⟨"", "[]main.Rec"⟩
      [Value.struct ⟨"main", "main.Rec"⟩ [("CreatedAt", true, false, timeValue 0 1600000000)],
       Value.struct ⟨"main", "main.Rec"⟩ [("CreatedAt", true, false, timeValue 0 1700000000)]]
      (Value.struct ⟨"main", "main.Rec"⟩ [("CreatedAt", true, false, timeValue 0 1700000000)])
      [("wall", false, false, Value.uint ⟨"", "uint64"⟩ UintWidth.W64 0),
       ("ext", false, false, Value.int RType.int64 IntWidth.W64 1700000000),
       ("loc", false, false, Value.ptr ⟨"", "*time.Location"⟩ none)]
      "CreatedAt" rfl rfl).1,
   (Last_time_field FmtRest.silent ⟨"", "[]main.RecT"⟩
      [Value.struct ⟨"main", "main.RecT"⟩
        [("stamps", false, true, Value.struct ⟨"main", "main.stamps"⟩
          [("CreatedAt", true, false, timeValue 0 1700000000)])]]
      (Value.struct ⟨"main", "main.RecT"⟩
        [("stamps", false, true, Value.struct ⟨"main", "main.stamps"⟩
          [("CreatedAt", true, false, timeValue 0 1700000000)])])
      [("wall", false, false, Value.uint ⟨"", "uint64"⟩ UintWidth.W64 0),
       ("ext", false, false, Value.int RType.int64 IntWidth.W64 1700000000),
       ("loc", false, false, Value.ptr ⟨"", "*time.Location"⟩ none)]
      "CreatedAt" rfl rfl).1⟩

/-- The limit extractor on a parameter that is the decimal notation of a
64-bit integer. -/
theorem GetLimitFromRequest_fmtInteger (request : Request) (options : Options) (n : Int)
    (hlo : -(2 ^ 63) ≤ n) (hhi : n < 2 ^ 63)
    (htext : Values.Get request.query options.LimitKeyName = fmtInteger n) :
    GetLimitFromRequest request options
      = (if options.MaxLimit > 0 ∧ n > options.MaxLimit then options.MaxLimit else n) := by
  rw [GetLimitFromRequest_unfold, htext, ParseInt_fmtInteger n hlo hhi]
  simp [fmtInteger_ne_empty]

/-- The offset extractor on a parameter that is the decimal notation of a
64-bit integer. -/
theorem GetOffsetFromRequest_fmtInteger (request : Request) (options : Options) (n : Int)
    (hlo : -(2 ^ 63) ≤ n) (hhi : n < 2 ^ 63)
    (htext : Values.Get request.query options.OffsetKeyName = fmtInteger n) :
    GetOffsetFromRequest request options = n := by
  rw [GetOffsetFromRequest_unfold, htext, ParseInt_fmtInteger n hlo hhi]
  simp [fmtInteger_ne_empty]

/-- The cursor extractor on a parameter that is the decimal notation of a
64-bit integer. -/
theorem GetCursorFromRequest_fmtInteger (request : Request) (options : Options) (n : Int)
    (hlo : -(2 ^ 63) ≤ n) (hhi : n < 2 ^ 63)
    (htext : Values.Get request.query options.CursorKeyName = fmtInteger n) :
    GetCursorFromRequest request options = n := by
  rw [GetCursorFromRequest_unfold, htext, ParseInt_fmtInteger n hlo hhi]
  simp [fmtInteger_ne_empty]

/-- C15: for a negative 64-bit integer `n`, a request whose limit, offset or
cursor parameter is the decimal notation of `n` makes `GetLimitFromRequest`,
`GetOffsetFromRequest` or `GetCursorFromRequest` return `n` itself, for every
`options`: the limit is raised neither to 0 nor to `DefaultLimit`, whatever
`MaxLimit` is. -/
theorem extraction_keeps_negative (request : Request) (options : Options) (n : Int)
    (hlo : -(2 ^ 63) ≤ n) (hneg : n < 0) :
    (Values.Get request.query options.LimitKeyName = fmtInteger n →
        GetLimitFromRequest request options = n)
      ∧ (Values.Get request.query options.OffsetKeyName = fmtInteger n →
        GetOffsetFromRequest request options = n)
      ∧ (Values.Get request.query options.CursorKeyName = fmtInteger n →
        GetCursorFromRequest request options = n)
      ∧ fmtInteger n = toString n := by
  have hhi : n < 2 ^ 63 := by omega
  refine ⟨fun h => ?_, fun h => ?_, fun h => ?_, fmtInteger_eq_toString n⟩
  · rw [GetLimitFromRequest_fmtInteger request options n hlo hhi h, if_neg]
    intro hc
    omega
  · exact GetOffsetFromRequest_fmtInteger request options n hlo hhi h
  · exact GetCursorFromRequest_fmtInteger request options n hlo hhi h

theorem extraction_keeps_negative_witness :
    -(2 ^ 63) ≤ (-3 : Int) ∧ (-3 : Int) < 0
      ∧ GetLimitFromRequest ⟨[("limit", ["-3"]), ("offset", ["-3"]), ("cursor", ["-3"])]⟩
          ⟨20, 100, "limit", "offset", "cursor"⟩ = -3
      ∧ GetOffsetFromRequest ⟨[("limit", ["-3"]), ("offset", ["-3"]), ("cursor", ["-3"])]⟩
          ⟨20, 100, "limit", "offset", "cursor"⟩ = -3
      ∧ GetCursorFromRequest ⟨[("limit", ["-3"]), ("offset", ["-3"]), ("cursor", ["-3"])]⟩
          ⟨20, 100, "limit", "offset", "cursor"⟩ = -3 := by
  have hfmt : fmtInteger (-3) = "-3" := by
    rw [fmtInteger_eq_toString]
    decide
  have h := extraction_keeps_negative
    ⟨[("limit", ["-3"]), ("offset", ["-3"]), ("cursor", ["-3"])]⟩
    ⟨20, 100, "limit", "offset", "cursor"⟩ (-3) (by decide) (by decide)
  refine ⟨by decide, by decide, h.1 ?_, h.2.1 ?_, h.2.2.1 ?_⟩
  · rw [hfmt]; decide
  · rw [hfmt]; decide
  · rw [hfmt]; decide

/-- C16: the pagination type depends on a request only through the text under
the cursor key: two requests with the same text under `options.CursorKeyName`
(in particular with the same list of values under it) get the same type from
`GetPaginationType`, whatever else they hold; with nil options the key is that
of `NewOptions`. -/
theorem GetPaginationType_cursor_only (CursorType OffsetType : String) (NewOptions : Options)
    (r1 r2 : Request) (options : Options) :
    (Values.Get r1.query options.CursorKeyName = Values.Get r2.query options.CursorKeyName →
        GetPaginationType CursorType OffsetType NewOptions r1 (some options)
          = GetPaginationType CursorType OffsetType NewOptions r2 (some options))
      ∧ (Values.lookup r1.query options.CursorKeyName
            = Values.lookup r2.query options.CursorKeyName →
        GetPaginationType CursorType OffsetType NewOptions r1 (some options)
          = GetPaginationType CursorType OffsetType NewOptions r2 (some options))
      ∧ (Values.Get r1.query NewOptions.CursorKeyName
            = Values.Get r2.query NewOptions.CursorKeyName →
        GetPaginationType CursorType OffsetType NewOptions r1 none
          = GetPaginationType CursorType OffsetType NewOptions r2 none) := by
  have hget : ∀ o : Options,
      Values.Get r1.query o.CursorKeyName = Values.Get r2.query o.CursorKeyName →
      GetCursorFromRequest r1 o = GetCursorFromRequest r2 o := by
    intro o h
    rw [GetCursorFromRequest_unfold, GetCursorFromRequest_unfold, h]
  refine ⟨fun h => ?_, fun h => ?_, fun h => ?_⟩
  · simp only [GetPaginationType, hget options h]
  · have h2 : Values.Get r1.query options.CursorKeyName
        = Values.Get r2.query options.CursorKeyName := by
      simp only [Values.Get, h]
    simp only [GetPaginationType, hget options h2]
  · simp only [GetPaginationType, hget NewOptions h]

theorem GetPaginationType_cursor_only_witness :
    Values.Get [("cursor", ["7"]), ("limit", ["5"])] "cursor"
        = Values.Get [("offset", ["40"]), ("cursor", ["7"])] "cursor"
      ∧ GetPaginationType "cursor" "offset" ⟨20, 20, "limit", "offset", "cursor"⟩
          ⟨[("cursor", ["7"]), ("limit", ["5"])]⟩ (some ⟨20, 20, "limit", "offset", "cursor"⟩)
        = GetPaginationType "cursor" "offset" ⟨20, 20, "limit", "offset", "cursor"⟩
          ⟨[("offset", ["40"]), ("cursor", ["7"])]⟩
          (some ⟨20, 20, "limit", "offset", "cursor"⟩) :=
  ⟨by decide,
   (GetPaginationType_cursor_only "cursor" "offset" ⟨20, 20, "limit", "offset", "cursor"⟩
      ⟨[("cursor", ["7"]), ("limit", ["5"])]⟩ ⟨[("offset", ["40"]), ("cursor", ["7"])]⟩
      ⟨20, 20, "limit", "offset", "cursor"⟩).1 (by decide)⟩

/-- C17: what the URI generators write for a 64-bit integer `n` reads back as
`n`: the text after the offset key in `GenerateOffsetURI` and after the cursor
key in `GenerateCursorURI` is the decimal notation of `n`, and a request with
that text as offset or cursor parameter makes `GetOffsetFromRequest` or
`GetCursorFromRequest` return `n`; the text after the limit key makes
`GetLimitFromRequest` return `n` when `MaxLimit ≤ 0` or `n ≤ MaxLimit`. -/
theorem generated_values_read_back (F : FmtRest) (request : Request) (options : Options)
    (n m : Int) (hlo : -(2 ^ 63) ≤ n) (hhi : n < 2 ^ 63) :
    GenerateOffsetURI F m n options
        = "?" ++ options.LimitKeyName ++ "=" ++ fmtInteger m ++ "&"
            ++ options.OffsetKeyName ++ "=" ++ fmtInteger n
      ∧ (Values.Get request.query options.OffsetKeyName = fmtInteger n →
          GetOffsetFromRequest request options = n)
      ∧ GenerateCursorURI F m (int64Value n) options
        = "?" ++ options.LimitKeyName ++ "=" ++ fmtInteger m ++ "&"
            ++ options.CursorKeyName ++ "=" ++ fmtInteger n
      ∧ (Values.Get request.query options.CursorKeyName = fmtInteger n →
          GetCursorFromRequest request options = n)
      ∧ GenerateOffsetURI F n m options
        = "?" ++ options.LimitKeyName ++ "=" ++ fmtInteger n ++ "&"
            ++ options.OffsetKeyName ++ "=" ++ fmtInteger m
      ∧ (options.MaxLimit ≤ 0 ∨ n ≤ options.MaxLimit →
          Values.Get request.query options.LimitKeyName = fmtInteger n →
          GetLimitFromRequest request options = n) := by
  refine ⟨?_, ?_, ?_, ?_, ?_, ?_⟩
  · simp only [GenerateOffsetURI, Sprintf_uri]
    simp [printArg, int64Value]
  · exact GetOffsetFromRequest_fmtInteger request options n hlo hhi
  · simp only [GenerateCursorURI, Sprintf_uri]
    simp [printArg, int64Value]
  · exact GetCursorFromRequest_fmtInteger request options n hlo hhi
  · simp only [GenerateOffsetURI, Sprintf_uri]
    simp [printArg, int64Value]
  · intro hmax htext
    rw [GetLimitFromRequest_fmtInteger request options n hlo hhi htext, if_neg]
    intro hc
    omega

theorem generated_values_read_back_witness :
    -(2 ^ 63) ≤ (-9223372036854775808 : Int) ∧ (-9223372036854775808 : Int) < 2 ^ 63
      ∧ GetOffsetFromRequest ⟨[("offset", ["-9223372036854775808"])]⟩
          ⟨20, 100, "limit", "offset", "cursor"⟩ = -9223372036854775808 := by
  have hfmt : fmtInteger (-9223372036854775808) = "-9223372036854775808" := by
    rw [fmtInteger_eq_toString]
    decide
  have h := generated_values_read_back FmtRest.silent
    ⟨[("offset", ["-9223372036854775808"])]⟩ ⟨20, 100, "limit", "offset", "cursor"⟩
    (-9223372036854775808) 10 (by decide) (by decide)
  refine ⟨by decide, by decide, h.2.1 ?_⟩
  rw [hfmt]
  decide

/-- C18: with `MaxLimit > 0` and `DefaultLimit ≤ MaxLimit`, the value of
`GetLimitFromRequest` is at most `MaxLimit` for every request. -/
theorem GetLimitFromRequest_le_max (request : Request) (options : Options)
    (hmax : options.MaxLimit > 0) (hdefault : options.DefaultLimit ≤ options.MaxLimit) :
    GetLimitFromRequest request options ≤ options.MaxLimit := by
  rw [GetLimitFromRequest_unfold]
  split_ifs <;> omega

theorem GetLimitFromRequest_le_max_witness :
    (Options.mk 20 100 "limit" "offset" "cursor").MaxLimit > 0
      ∧ (Options.mk 20 100 "limit" "offset" "cursor").DefaultLimit
          ≤ (Options.mk 20 100 "limit" "offset" "cursor").MaxLimit
      ∧ GetLimitFromRequest ⟨[("limit", ["500"])]⟩ ⟨20, 100, "limit", "offset", "cursor"⟩
          ≤ (Options.mk 20 100 "limit" "offset" "cursor").MaxLimit :=
  ⟨by decide, by decide,
   GetLimitFromRequest_le_max ⟨[("limit", ["500"])]⟩ ⟨20, 100, "limit", "offset", "cursor"⟩
     (by decide) (by decide)⟩

/-- C19: what `Last` returns for an empty sequence is the `int` 0, while for a
non-empty sequence with an integer field it is an `int64`; the two are values
of different dynamic types and kinds, so they differ even when the `int64` is
0. -/
theorem Last_empty_is_int_not_int64 (F : FmtRest) (t ft : RType) (field : String) :
    Last F (Value.slice t []) field = Outcome.ret (intValue 0, none)
      ∧ (∀ (xs : List Value) (item : Value) (w : IntWidth) (v : Int) (ro : Bool),
          xs.getLast? = some item →
          item.FieldByName field = Outcome.ret (Value.int ft w v, ro) →
          Last F (Value.slice t xs) field = Outcome.ret (int64Value v, none))
      ∧ (∀ (xs : List Value) (st : RType) (fields : List (String × Bool × Bool × Value))
          (w : IntWidth) (v : Int) (ro : Bool),
          xs.getLast? = some (Value.struct st fields) →
          lookupField fields field = some (Value.int ft w v, ro) →
          Last F (Value.slice t xs) field = Outcome.ret (int64Value v, none))
      ∧ (intValue 0).Type = Outcome.ret RType.int
      ∧ (intValue 0).Kind = Kind.Int
      ∧ (∀ v : Int, (int64Value v).Type = Outcome.ret RType.int64
          ∧ (int64Value v).Kind = Kind.Int64)
      ∧ RType.int ≠ RType.int64
      ∧ Kind.Int ≠ Kind.Int64
      ∧ (∀ v : Int, intValue 0 ≠ int64Value v) := by
  have hgen : ∀ (xs : List Value) (item : Value) (w : IntWidth) (v : Int) (ro : Bool),
      xs.getLast? = some item →
      item.FieldByName field = Outcome.ret (Value.int ft w v, ro) →
      Last F (Value.slice t xs) field = Outcome.ret (int64Value v, none) := by
    intro xs item w v ro hitem hfield
    obtain ⟨front, rfl⟩ := eq_concat_of_getLast? xs _ hitem
    rw [Last_slice, lastOfSequence_slice_concat, lastOfItem_int item ft field w v ro hfield]
  refine ⟨?_, hgen, ?_, rfl, rfl, fun v => ⟨rfl, rfl⟩, by decide, by decide, ?_⟩
  · rw [Last_slice, lastOfSequence_slice_nil]
  · intro xs st fields w v ro hitem hfield
    exact hgen xs _ w v ro hitem (FieldByName_declared st fields field _ hfield)
  · intro v h
    have hk := congrArg Value.Kind h
    cases hk

end Paging
